import Mathlib

/-! wtree: session registry and worktree status classification

A shallow embedding of the Go packages `internal/session`, `internal/git`, `internal/id`
and `internal/ui`, and of the command handlers `ls`, `rm`, `merge` and `prune` in `cmd`.

Modelling conventions.

* A Go `string` is a Lean `String`, the sequence of its code points.  On strings that
  are valid UTF-8 a comparison byte by byte and one code point by code point agree, so
  `strings.HasPrefix` compares the leading part of the string with the prefix,
  position by position and without any case folding.
* A Go `error` is the text of its message.  A function returning `(T, error)` returns
  `Except String T`.
* A `*Session` is the session it points to.  A Go `map[string]*Session` is an
  association list with pairwise distinct keys (`AList`); the order of its entries is
  the order in which one `range` loop enumerates them, and nothing is assumed about
  that order.
* Every run of the external `git` program, every question to the user and every write
  to the disk is recorded: a function that does any of these returns its value together
  with the list of these interactions, oldest first.  What the commands print is left
  out.
* The disk is a value that `Save` changes and `Load` reads.  Go's `encoding/json` is a
  parameter (`Codec`); what is fixed is how `json.Unmarshal` stores an object into a
  map that is not nil: member by member, keeping the entries under other keys, and
  that it makes the map nil when the text is `null`.
* A `Store` is a store whose map is allocated, as `NewStore` makes it.  The one place
  that leaves the map nil is `Load` on the record `null`; what `Load` leaves is a
  `LoadedStore`, which says whether the map is nil.  A nil map reads as the empty map,
  and the assignment of `Add` to it panics.
* A command handler is embedded from the point where the configuration and the
  registry have been loaded, on the registry as it reads; `rm`, `merge` and `prune`
  never assign to the map.
-/

namespace Wtree

/-! ## Go standard library functions used by the code -/

/-- Go `strings.HasPrefix(s, prefix)`:
`len(s) >= len(prefix) && s[:len(prefix)] == prefix`. -/
def HasPrefix (s pre : String) : Bool :=
  decide (pre.data.length ≤ s.data.length) && (s.data.take pre.data.length == pre.data)

/-- Go `strings.TrimPrefix(s, prefix)`: `s` without the leading `prefix`, or `s` itself
when it does not start with `prefix`. -/
def TrimPrefix (s pre : String) : String :=
  if HasPrefix s pre then ⟨s.data.drop pre.data.length⟩ else s

/-- Go `unicode.IsSpace`: the Latin-1 spaces `\t \n \v \f \r`, space, U+0085, U+00A0,
and the other code points with the White_Space property. -/
def isSpace (c : Char) : Bool :=
  let n := c.toNat
  n == 0x09 || n == 0x0A || n == 0x0B || n == 0x0C || n == 0x0D || n == 0x20 ||
  n == 0x85 || n == 0xA0 || n == 0x1680 || (decide (0x2000 ≤ n) && decide (n ≤ 0x200A)) ||
  n == 0x2028 || n == 0x2029 || n == 0x202F || n == 0x205F || n == 0x3000

/-- Go `strings.TrimSpace`: the string without its leading and trailing white space. -/
def TrimSpace (s : String) : String :=
  ⟨(s.data.dropWhile isSpace).rdropWhile isSpace⟩

/-- The pieces of a list of characters between the occurrences of `sep`. -/
def splitChars (sep : Char) : List Char → List (List Char)
  | [] => [[]]
  | c :: cs =>
    if c = sep then [] :: splitChars sep cs
    else
      match splitChars sep cs with
      | [] => [[c]]
      | piece :: pieces => (c :: piece) :: pieces

/-- Go `strings.Split(s, sep)` for a separator of one character: the substrings of `s`
between the separators, one more than there are separators. -/
def Split (s : String) (sep : Char) : List String :=
  (splitChars sep s.data).map String.mk

/-- One step of reading a run of decimal digits: the value read so far extended by the
digit `c`; `none` once a character that is no digit has been met. -/
def digitStep (acc : Option Nat) (c : Char) : Option Nat :=
  match acc with
  | none => none
  | some n => if c.isDigit then some (n * 10 + (c.toNat - 48)) else none

/-- The value of a run of decimal digits, `none` when the run is empty or holds any
other character. -/
def parseDigits (cs : List Char) : Option Nat :=
  if cs = [] then none else cs.foldl digitStep (some 0)

/-- Go `strconv.Atoi` on a 64-bit platform: an optional sign, then decimal digits, with
a value in the range of `int`; `none` when Go returns an error (invalid syntax or value
out of range). -/
def Atoi (s : String) : Option Int :=
  match s.data with
  | '-' :: ds =>
    match parseDigits ds with
    | some n => if n ≤ 2 ^ 63 then some (-(n : Int)) else none
    | none => none
  | '+' :: ds =>
    match parseDigits ds with
    | some n => if n < 2 ^ 63 then some (n : Int) else none
    | none => none
  | ds =>
    match parseDigits ds with
    | some n => if n < 2 ^ 63 then some (n : Int) else none
    | none => none

/-- The words "the output is an integer": an optional sign followed by one or more
decimal digits. -/
def isIntegerText (s : String) : Bool :=
  match s.data with
  | '-' :: ds => !ds.isEmpty && ds.all Char.isDigit
  | '+' :: ds => !ds.isEmpty && ds.all Char.isDigit
  | ds => !ds.isEmpty && ds.all Char.isDigit

/-- Go `strconv.Itoa`: the decimal rendering of an `int`. -/
def Itoa (n : Int) : String := toString n

/-- Equality of results is decidable when equality of errors and of values is. -/
instance decEqExcept {ε α : Type} [DecidableEq ε] [DecidableEq α] :
    DecidableEq (Except ε α)
  | .ok a, .ok b =>
    if h : a = b then isTrue (by rw [h]) else isFalse (fun h2 => h (Except.ok.inj h2))
  | .error a, .error b =>
    if h : a = b then isTrue (by rw [h]) else isFalse (fun h2 => h (Except.error.inj h2))
  | .ok _, .error _ => isFalse (fun h => Except.noConfusion h)
  | .error _, .ok _ => isFalse (fun h => Except.noConfusion h)

/-! ## internal/session -/

/-- The struct `Session` of session.go.  `CreatedAt` is the creation instant in
nanoseconds since the Unix epoch. -/
structure Session where
  ID : String
  Branch : String
  Path : String
  AbsPath : String
  CreatedAt : Int
deriving DecidableEq, Repr

/-- The field type `map[string]*Session`. -/
abbrev SessionMap := AList (fun _ : String => Session)

/-- The struct `Store` of store.go, with the map `sessions` allocated. -/
structure Store where
  repoRoot : String
  sessions : SessionMap

/-- The struct `Store` of store.go as `Load` leaves it: `nilMap` says that the map
`sessions` is nil, and `sessions` is then empty, as a nil map reads. -/
structure LoadedStore extends Store where
  nilMap : Bool

/-- The constructor `NewStore`. -/
def NewStore (repoRoot : String) : Store :=
  { repoRoot := repoRoot, sessions := ∅ }

/-- The method `Store.Add` on a store whose map is allocated:
`s.sessions[session.ID] = session`. -/
def Store.Add (s : Store) (session : Session) : Store :=
  { s with sessions := s.sessions.insert session.ID session }

/-- The method `Store.Add` on a store as `Load` leaves it: the assignment
`s.sessions[session.ID] = session` panics when the map is nil, and there is no store
after it (`none`); otherwise the map is allocated and `Add` does as above. -/
def LoadedStore.Add (s : LoadedStore) (session : Session) : Option Store :=
  if s.nilMap then none
  else some (s.toStore.Add session)

/-- The method `Store.Remove`: `delete(s.sessions, id)`. -/
def Store.Remove (s : Store) (id : String) : Store :=
  { s with sessions := s.sessions.erase id }

/-- The method `Store.Get`. -/
def Store.Get (s : Store) (id : String) : Option Session :=
  s.sessions.lookup id

/-- The method `Store.All`. -/
def Store.All (s : Store) : List Session :=
  s.sessions.entries.foldl (fun result e => result ++ [e.2]) []

/-- The method `Store.Count`. -/
def Store.Count (s : Store) : Nat :=
  s.sessions.entries.length

/-- The loop of `FindByPartialID`: the sessions whose key starts with `partialID`,
appended in enumeration order. -/
def Store.findMatches (s : Store) (partialID : String) : List Session :=
  s.sessions.entries.foldl
    (fun found e => if HasPrefix e.1 partialID then found ++ [e.2] else found) []

/-- The message of the error returned for zero matches:
`fmt.Errorf("worktree not found: %s", partialID)`. -/
def notFoundError (partialID : String) : String :=
  "worktree not found: " ++ partialID

/-- The message of the error returned for several matches:
`fmt.Errorf("ambiguous ID \x27%s\x27: matches %d worktrees", partialID, len(matches))`. -/
def ambiguousError (partialID : String) (count : Nat) : String :=
  "ambiguous ID \x27" ++ partialID ++ "\x27: matches " ++ toString count ++ " worktrees"

/-- The method `Store.FindByPartialID`. -/
def Store.FindByPartialID (s : Store) (partialID : String) : Except String Session :=
  match s.findMatches partialID with
  | [] => .error (notFoundError partialID)
  | [m] => .ok m
  | m :: n :: rest => .error (ambiguousError partialID (m :: n :: rest).length)

/-- The registered IDs for which the test of the loop holds, in enumeration order. -/
def Store.idsWithPrefix (s : Store) (p : String) : List String :=
  s.sessions.keys.filter (fun id => HasPrefix id p)

/-- The words "`id` starts with `p`": `id` is `p` followed by some further characters. -/
def StartsWith (id p : String) : Prop := p.data <+: id.data

instance decStartsWith (id p : String) : Decidable (StartsWith id p) := by
  unfold StartsWith; infer_instance

/-- The set of registered IDs that start with `p`. -/
def Store.matchingIDs (s : Store) (p : String) : Finset String :=
  s.sessions.keys.toFinset.filter (fun id => StartsWith id p)

/-! ## The world outside the process -/

/-- What the process can observe of the machine it runs on.  The repository is taken
as it stands while the queries of one command run: the same query gets the same
answer. -/
structure World where
  /-- The result of `exec.Command("git", args...).Output()`: the standard output of the
  run, or the error of a run that failed. -/
  gitOutput : List String → Except String String
  /-- Go `filepath.Abs`. -/
  Abs : String → Except String String
  /-- Go `filepath.Separator`. -/
  Separator : Char
  /-- Go `strings.EqualFold`: equality under Unicode case folding. -/
  EqualFold : String → String → Bool
  /-- The result of `exec.Command("git", args...).CombinedOutput()`: what the run wrote
  to standard output and standard error, and the error of the run when it failed.  For
  a run that changes the repository this is the outcome the run has at the point where
  the command makes it. -/
  gitCombinedOutput : List String → String × Option String
  /-- Go `filepath.Join`. -/
  Join : List String → String
  /-- Go `strings.ToLower`. -/
  ToLower : String → String
  /-- The result of `bufio.NewReader(os.Stdin).ReadString('\n')`: the line the user
  types, with its line end, or the error of the read. -/
  ReadLine : Except String String

/-- An interaction of the process with the world. -/
inductive Event where
  | git (args : List String)
  | confirm (message : String)
  | mkdirAll (path : String)
  | writeFile (path : String) (data : String)
  | removeAll (path : String)
deriving DecidableEq, Repr

/-- A value together with the interactions made while computing it, oldest first. -/
structure Traced (α : Type) where
  val : α
  events : List Event

instance : Monad Traced where
  pure a := ⟨a, []⟩
  bind x f := ⟨(f x.val).val, x.events ++ (f x.val).events⟩

/-- Run `git` with the arguments `args` and collect its standard output. -/
def git (w : World) (args : List String) : Traced (Except String String) :=
  ⟨w.gitOutput args, [Event.git args]⟩

/-- Run `git` with the arguments `args` and collect what it writes to standard output
and standard error. -/
def gitCombined (w : World) (args : List String) : Traced (String × Option String) :=
  ⟨w.gitCombinedOutput args, [Event.git args]⟩

/-- Run `git` with the arguments `args` for its exit status alone (`cmd.Run()`): the
error of the run, if it fails. -/
def gitRun (w : World) (args : List String) : Traced (Option String) :=
  ⟨match w.gitOutput args with
    | .ok _ => none
    | .error err => some err,
   [Event.git args]⟩

/-- Go `filepath.ToSlash`: every separator character replaced by a slash. -/
def ToSlash (w : World) (path : String) : String :=
  ⟨path.data.map (fun c => if c = w.Separator then '/' else c)⟩

/-! ## internal/git -/

/-- The constants of type `WorktreeStatus` of status.go. -/
inductive WorktreeStatus where
  | StatusClean
  | StatusUncommitted
  | StatusAhead
  | StatusMerged
  | StatusStale
deriving DecidableEq, Repr

/-- The struct `StatusInfo` of status.go.  A field that a composite literal leaves out
holds its zero value. -/
structure StatusInfo where
  Status : WorktreeStatus
  AheadCount : Int := 0
  Description : String
deriving DecidableEq, Repr

/-- The function `HasUncommittedChanges` of status.go. -/
def HasUncommittedChanges (w : World) (worktreePath : String) : Traced (Except String Bool) := do
  let output ← git w ["-C", worktreePath, "status", "--porcelain"]
  match output with
  | .error err => pure (.error err)
  | .ok out => pure (.ok (decide ((TrimSpace out).data.length > 0)))

/-- The function `GetAheadCount` of status.go. -/
def GetAheadCount (w : World) (baseBranch branch : String) : Traced (Except String Int) := do
  let output ← git w ["rev-list", "--count", baseBranch ++ ".." ++ branch]
  match output with
  | .error _ => pure (.ok 0)
  | .ok out =>
    match Atoi (TrimSpace out) with
    | none => pure (.ok 0)
    | some count => pure (.ok count)

/-- The function `IsMerged` of status.go. -/
def IsMerged (w : World) (baseBranch branch : String) : Traced (Except String Bool) := do
  let output ← git w ["branch", "--merged", baseBranch]
  match output with
  | .error _ => pure (.ok false)
  | .ok out =>
    pure (.ok ((Split out '\n').any
      (fun line => decide (TrimSpace (TrimPrefix line "*") = branch))))

/-- The function `GetStatus` of status.go. -/
def GetStatus (w : World) (worktreePath baseBranch branch : String) :
    Traced (Except String StatusInfo) := do
  let hasChanges ← HasUncommittedChanges w worktreePath
  match hasChanges with
  | .error err => pure (.error err)
  | .ok true => pure (.ok { Status := .StatusUncommitted, Description := "uncommitted" })
  | .ok false =>
    let merged ← IsMerged w baseBranch branch
    match merged with
    | .error err => pure (.error err)
    | .ok true => pure (.ok { Status := .StatusMerged, Description := "merged" })
    | .ok false =>
      let aheadCount ← GetAheadCount w baseBranch branch
      match aheadCount with
      | .error err => pure (.error err)
      | .ok n =>
        if n > 0 then
          pure (.ok { Status := .StatusAhead, AheadCount := n,
                      Description := "ahead " ++ Itoa n })
        else
          pure (.ok { Status := .StatusClean, Description := "clean" })

/-- The function `WorktreeExists` of worktree.go. -/
def WorktreeExists (w : World) (path : String) : Traced Bool :=
  match w.Abs path with
  | .error _ => pure false
  | .ok absPath => do
    let normalizedPath := ToSlash w absPath
    let output ← git w ["worktree", "list", "--porcelain"]
    match output with
    | .error _ => pure false
    | .ok out =>
      pure ((Split out '\n').any (fun line =>
        HasPrefix line "worktree " &&
          w.EqualFold normalizedPath (ToSlash w (TrimPrefix line "worktree "))))

/-! ## cmd -/

/-- The text attributes the commands print with (package `color`). -/
inductive Color where
  | FgRed
  | FgGreen
  | FgYellow
  | FgCyan
  | FgHiBlack
deriving DecidableEq, Repr

/-- A text wrapped by `color.New(c).SprintFunc()`. -/
structure Colored where
  color : Color
  text : String
deriving DecidableEq, Repr

/-- The body of the loop of `runLs` up to the row: the STATUS cell of one session. -/
def lsStatusStr (w : World) (baseBranch : String) (sess : Session) : Traced Colored := do
  let worktreeExists ← WorktreeExists w sess.AbsPath
  if !worktreeExists then
    pure ⟨.FgHiBlack, "stale"⟩
  else
    let statusInfo ← GetStatus w sess.AbsPath baseBranch sess.Branch
    match statusInfo with
    | .error _ => pure ⟨.FgHiBlack, "unknown"⟩
    | .ok info =>
      match info.Status with
      | .StatusClean => pure ⟨.FgGreen, info.Description⟩
      | .StatusUncommitted => pure ⟨.FgRed, info.Description⟩
      | .StatusAhead => pure ⟨.FgYellow, info.Description⟩
      | .StatusMerged => pure ⟨.FgCyan, info.Description⟩
      | .StatusStale => pure ⟨.FgHiBlack, "unknown"⟩

/-- A row of the table of `runLs`: the columns ID, BRANCH, CREATED, STATUS, PATH. -/
structure LsRow where
  ID : String
  Branch : String
  Created : String
  Status : Colored
  Path : String
deriving DecidableEq, Repr

/-- The loop of `runLs` over the sorted sessions.  `relativeTime` stands for
`Session.RelativeTime`, which reads the clock. -/
def lsRows (w : World) (baseBranch : String) (relativeTime : Session → String) :
    List Session → Traced (List LsRow)
  | [] => pure []
  | sess :: rest => do
    let statusStr ← lsStatusStr w baseBranch sess
    let rows ← lsRows w baseBranch relativeTime rest
    pure (⟨sess.ID, sess.Branch, relativeTime sess, statusStr, sess.Path⟩ :: rows)

/-- The first loop of `runPrune`: the sessions of `store.All()` whose status is
`StatusMerged`, in the order of the enumeration. -/
def pruneMergedSessions (w : World) (baseBranch : String) :
    List Session → Traced (List Session)
  | [] => pure []
  | sess :: rest => do
    let statusInfo ← GetStatus w sess.AbsPath baseBranch sess.Branch
    let mergedSessions ← pruneMergedSessions w baseBranch rest
    match statusInfo with
    | .error _ => pure mergedSessions
    | .ok info =>
      if info.Status = .StatusMerged then pure (sess :: mergedSessions)
      else pure mergedSessions

/-! ## internal/session: the persisted record -/

/-- What `os.ReadFile` returns: the content of the file, an error for which
`os.IsNotExist` holds, or another error. -/
inductive ReadResult where
  | data (content : String)
  | notExist (err : String)
  | failed (err : String)
deriving DecidableEq, Repr

/-- An entry of a directory, as `os.ReadDir` returns it. -/
structure DirEntry where
  Name : String
  IsDir : Bool
deriving DecidableEq, Repr

/-- The files the process reads and writes.  Files are told apart by the text of their
path. -/
structure Disk where
  /-- The result of `os.ReadFile(path)`. -/
  ReadFile : String → ReadResult
  /-- The result of `os.ReadDir(path)`. -/
  ReadDir : String → Except String (List DirEntry)
  /-- The error of `os.MkdirAll(path, 0755)`, if it fails. -/
  MkdirAll : String → Option String
  /-- The error of `os.WriteFile(path, data, 0644)`, if it fails. -/
  WriteFile : String → Option String

/-- The disk after `data` has been written to the file at `path`. -/
def Disk.write (d : Disk) (path data : String) : Disk :=
  { d with ReadFile := fun p => if p = path then .data data else d.ReadFile p }

/-- What a JSON text holds when read as a `map[string]*Session`: the value `null`, or
an object with its members in the order of the text. -/
inductive Decoded where
  | null
  | object (members : List (String × Session))
deriving DecidableEq, Repr

/-- The part of Go's `encoding/json` the store uses, at the type `map[string]*Session`. -/
structure Codec where
  /-- Go `json.MarshalIndent(m, "", "  ")`. -/
  MarshalIndent : SessionMap → Except String String
  /-- What `json.Unmarshal` reads from `data`, or its error when `data` is no JSON text
  for a `map[string]*Session`. -/
  Decode : String → Except String Decoded

/-- Go `json.Unmarshal(data, &m)` for a map `m` that is not nil: `null` sets the map to
nil (`none`); an object is stored member by member into the map `m` as it is, so the
entries of `m` under other keys are kept. -/
def Unmarshal (c : Codec) (data : String) (m : SessionMap) :
    Except String (Option SessionMap) :=
  match c.Decode data with
  | .error err => .error err
  | .ok .null => .ok none
  | .ok (.object members) =>
    .ok (some (members.foldl (fun acc kv => acc.insert kv.1 kv.2) m))

/-- The method `Store.sessionsPath`. -/
def Store.sessionsPath (s : Store) (w : World) : String :=
  w.Join [s.repoRoot, ".wtree", "sessions.json"]

/-- The method `Store.worktreeDirPath`. -/
def Store.worktreeDirPath (s : Store) (w : World) : String :=
  w.Join [s.repoRoot, ".wtree"]

/-- The method `Store.Load`.  The store is returned when `Load` returns nil; no caller
uses the store after an error.  With the record missing the map is made anew; with
the record `null` the map is left nil. -/
def Store.Load (s : Store) (w : World) (c : Codec) (d : Disk) : Except String LoadedStore :=
  match d.ReadFile (s.sessionsPath w) with
  | .notExist _ => .ok ⟨{ s with sessions := ∅ }, false⟩
  | .failed err => .error ("failed to read sessions file: " ++ err)
  | .data data =>
    match Unmarshal c data s.sessions with
    | .error err => .error ("failed to parse sessions file: " ++ err)
    | .ok none => .ok ⟨{ s with sessions := ∅ }, true⟩
    | .ok (some m) => .ok ⟨{ s with sessions := m }, false⟩

/-- Run `os.MkdirAll(path, 0755)`. -/
def mkdirAll (d : Disk) (path : String) : Traced (Option String) :=
  ⟨d.MkdirAll path, [Event.mkdirAll path]⟩

/-- Run `os.WriteFile(path, data, 0644)`: its error, if any, and the disk it leaves.  A
write that fails is taken to leave the disk as it was. -/
def writeFile (d : Disk) (path data : String) : Traced (Option String × Disk) :=
  ⟨match d.WriteFile path with
    | some err => (some err, d)
    | none => (none, d.write path data),
   [Event.writeFile path data]⟩

/-- The method `Store.Save`: the error it returns, if any, and the disk it leaves. -/
def Store.Save (s : Store) (w : World) (c : Codec) (d : Disk) :
    Traced (Option String × Disk) := do
  let err ← mkdirAll d (s.worktreeDirPath w)
  match err with
  | some err => pure (some ("failed to create .wtree directory: " ++ err), d)
  | none =>
    match c.MarshalIndent s.sessions with
    | .error err => pure (some ("failed to marshal sessions: " ++ err), d)
    | .ok data =>
      let written ← writeFile d (s.sessionsPath w) data
      match written.1 with
      | some err => pure (some ("failed to write sessions file: " ++ err), written.2)
      | none => pure (none, written.2)

/-! ## internal/id -/

/-- A byte. -/
abbrev Byte := Fin 256

/-- The random source `crypto/rand`: either it fails, or it delivers bytes, `byte i`
being the byte it puts at index `i` of the buffer. -/
structure RandSource where
  err : Option String
  byte : Nat → Byte

/-- Go `rand.Read(b)`: the buffer `b` filled with random bytes, or the error of the
source. -/
def RandSource.Read (r : RandSource) (b : List Byte) : Except String (List Byte) :=
  match r.err with
  | some err => .error err
  | none => .ok ((List.range b.length).map r.byte)

/-- The table `hextable` of Go's `encoding/hex`. -/
def hextable : List Char := "0123456789abcdef".data

/-- Go `hex.EncodeToString`: for each byte `v` the characters `hextable[v>>4]` and
`hextable[v&0x0f]`. -/
def EncodeToString (src : List Byte) : String :=
  ⟨(src.map (fun v => [hextable.getD (v.val / 16) '0', hextable.getD (v.val % 16) '0'])).flatten⟩

/-- The function `Generate` of generator.go. -/
def Generate (r : RandSource) : Except String String :=
  match r.Read (List.replicate 4 0) with
  | .error err => .error err
  | .ok bytes => .ok (EncodeToString bytes)

/-- The value of a lowercase hexadecimal digit. -/
def hexDigitValue (c : Char) : Option Nat :=
  if '0' ≤ c ∧ c ≤ '9' then some (c.toNat - '0'.toNat)
  else if 'a' ≤ c ∧ c ≤ 'f' then some (c.toNat - 'a'.toNat + 10)
  else none

/-- The bytes that a text of lowercase hexadecimal digits stands for, two digits to a
byte, the high digit first. -/
def hexBytes : List Char → Option (List Nat)
  | [] => some []
  | [_] => none
  | hi :: lo :: rest =>
    match hexDigitValue hi, hexDigitValue lo, hexBytes rest with
    | some h, some l, some bytes => some ((h * 16 + l) :: bytes)
    | _, _, _ => none

/-! ## internal/git: the runs that change the repository -/

/-- Go `strings.Contains(s, substr)`: `substr` occurs somewhere in `s`. -/
def Contains (s substr : String) : Bool :=
  s.data.tails.any (fun rest => substr.data.isPrefixOf rest)

/-- The function `RemoveWorktree` of worktree.go: the error it returns, if any. -/
def RemoveWorktree (w : World) (path : String) (force : Bool) : Traced (Option String) := do
  let args := if force then ["worktree", "remove", path, "--force"]
    else ["worktree", "remove", path]
  let result ← gitCombined w args
  match result.2 with
  | some _ => pure (some ("failed to remove worktree: " ++ TrimSpace result.1))
  | none => pure none

/-- The function `DeleteBranch` of branch.go: the error it returns, if any. -/
def DeleteBranch (w : World) (branch : String) (force : Bool) : Traced (Option String) := do
  let flag := if force then "-D" else "-d"
  let result ← gitCombined w ["branch", flag, branch]
  match result.2 with
  | some _ => pure (some ("failed to delete branch: " ++ TrimSpace result.1))
  | none => pure none

/-- The function `BranchExists` of branch.go. -/
def BranchExists (w : World) (branch : String) : Traced Bool := do
  let err ← gitRun w ["rev-parse", "--verify", branch]
  pure err.isNone

/-- The function `GetCurrentBranch` of branch.go. -/
def GetCurrentBranch (w : World) : Traced (Except String String) := do
  let output ← git w ["rev-parse", "--abbrev-ref", "HEAD"]
  match output with
  | .error err => pure (.error ("failed to get current branch: " ++ err))
  | .ok out => pure (.ok (TrimSpace out))

/-- The function `Merge` of merge.go: the error it returns, if any. -/
def Merge (w : World) (branch : String) : Traced (Option String) := do
  let result ← gitCombined w ["merge", branch]
  match result.2 with
  | some _ =>
    let outputStr := TrimSpace result.1
    if Contains outputStr "CONFLICT" || Contains outputStr "Automatic merge failed" then
      pure (some "merge conflict detected")
    else
      pure (some ("failed to merge: " ++ outputStr))
  | none => pure none

/-! ## internal/ui -/

/-- The function `Confirm` of prompt.go. -/
def Confirm (w : World) (message : String) : Traced Bool :=
  ⟨match w.ReadLine with
    | .error _ => false
    | .ok response =>
      let response := w.ToLower (TrimSpace response)
      response == "y" || response == "yes",
   [Event.confirm message]⟩

/-! ## cmd: removing and merging -/

/-- What a command handler leaves behind: the error it returns (`none` for nil), the
registry in memory and the disk. -/
structure Outcome where
  err : Option String
  store : Store
  disk : Disk

/-- The end that `runRm` and `runMerge` share: the session is removed from the registry
and the registry is saved. -/
def removeFromSessions (w : World) (c : Codec) (d : Disk) (store : Store) (sess : Session) :
    Traced Outcome := do
  let store := store.Remove sess.ID
  let saved ← store.Save w c d
  match saved.1 with
  | some err => pure ⟨some ("failed to update sessions: " ++ err), store, saved.2⟩
  | none => pure ⟨none, store, saved.2⟩

/-- The status check of `runRm` on a worktree that exists: whether the run ends here
because the user did not confirm. -/
def rmCancelled (w : World) (rmForce : Bool) (baseBranch : String) (sess : Session) :
    Traced Bool := do
  if !rmForce then
    let statusInfo ← GetStatus w sess.AbsPath baseBranch sess.Branch
    match statusInfo with
    | .error _ => pure false
    | .ok info =>
      match info.Status with
      | .StatusUncommitted =>
        let confirmed ← Confirm w "Continue?"
        pure (!confirmed)
      | .StatusAhead =>
        let confirmed ← Confirm w "Continue?"
        pure (!confirmed)
      | _ => pure false
  else
    pure false

/-- The handler `runRm`, from the lookup of the session in the loaded registry
`store` on.  `baseBranch` is `cfg.Worktree.BaseBranch`. -/
def runRm (w : World) (c : Codec) (d : Disk) (rmForce : Bool) (baseBranch : String)
    (store : Store) (partialID : String) : Traced Outcome :=
  match store.FindByPartialID partialID with
  | .error err => pure ⟨some err, store, d⟩
  | .ok sess => do
    let worktreeExists ← WorktreeExists w sess.AbsPath
    if worktreeExists then
      let cancelled ← rmCancelled w rmForce baseBranch sess
      if cancelled then
        pure ⟨none, store, d⟩
      else
        let _ ← RemoveWorktree w sess.AbsPath rmForce
        let _ ← DeleteBranch w sess.Branch rmForce
        removeFromSessions w c d store sess
    else
      let branchExists ← BranchExists w sess.Branch
      if branchExists then
        let _ ← DeleteBranch w sess.Branch true
        removeFromSessions w c d store sess
      else
        removeFromSessions w c d store sess

/-- The handler `runMerge`, from the lookup of the session in the loaded registry
`store` on.  `baseBranch` is `cfg.Worktree.BaseBranch`. -/
def runMerge (w : World) (c : Codec) (d : Disk) (baseBranch : String)
    (store : Store) (partialID : String) : Traced Outcome :=
  match store.FindByPartialID partialID with
  | .error err => pure ⟨some err, store, d⟩
  | .ok sess => do
    let current ← GetCurrentBranch w
    let currentBranch := match current with
      | .ok branch => branch
      | .error _ => ""
    if currentBranch = sess.Branch then
      pure ⟨some ("cannot merge from within the worktree itself. " ++
        "Please run from the main repository"), store, d⟩
    else
      let hasChanges ← HasUncommittedChanges w sess.AbsPath
      match hasChanges with
      | .error err => pure ⟨some err, store, d⟩
      | .ok true =>
        pure ⟨some ("worktree " ++ sess.ID ++
          " has uncommitted changes. Please commit or stash them first"), store, d⟩
      | .ok false =>
        let _ ← GetAheadCount w baseBranch sess.Branch
        let merged ← Merge w sess.Branch
        match merged with
        | some err =>
          if err = "merge conflict detected" then
            pure ⟨none, store, d⟩
          else
            pure ⟨some err, store, d⟩
        | none =>
          let _ ← RemoveWorktree w sess.AbsPath false
          let _ ← DeleteBranch w sess.Branch false
          removeFromSessions w c d store sess

/-- The paths named by the lines of `git worktree list --porcelain` that begin with
the word `worktree`. -/
def worktreeListEntries (out : String) : List String :=
  ((Split out '\n').filter (fun line => HasPrefix line "worktree ")).map
    (fun line => ⟨line.data.drop 9⟩)

/-- Whether `runRm` asks for confirmation on a status: only on a status that was
computed and is Uncommitted or Ahead. -/
def needsConfirmation (status : Except String StatusInfo) : Bool :=
  match status with
  | .error _ => false
  | .ok info =>
    decide (info.Status = .StatusUncommitted) || decide (info.Status = .StatusAhead)

/-- One worktree in the output of `git worktree list --porcelain`: its path, and the
attribute lines that follow the line of the path (`HEAD`, `branch`, `bare`, `detached`,
`locked`, `prunable`). -/
structure WorktreeEntry where
  path : String
  attributes : List String

/-- The lines git prints for one worktree: the word `worktree` and the path, the
attribute lines, and an empty line. -/
def WorktreeEntry.lines (e : WorktreeEntry) : List String :=
  ("worktree " ++ e.path) :: (e.attributes ++ [""])

/-- The output of `git worktree list --porcelain` for the worktrees `entries`: the
lines of each, every line ended by a line feed. -/
def renderWorktreeList (entries : List WorktreeEntry) : String :=
  ⟨(((entries.map WorktreeEntry.lines).flatten).map (fun line => line.data ++ ['\n'])).flatten⟩

/-- An entry git can print on lines of its own: no line feed in the path or in an
attribute line, and no attribute line that begins like the line of a path. -/
def WorktreeEntry.WellFormed (e : WorktreeEntry) : Prop :=
  '\n' ∉ e.path.data ∧
  ∀ line ∈ e.attributes, '\n' ∉ line.data ∧ HasPrefix line "worktree " = false

/-- A call that changes the registry: `Add(session)` or `Remove(id)`. -/
inductive StoreOp where
  | add (session : Session)
  | remove (id : String)
deriving DecidableEq, Repr

/-- The registry after one call. -/
def Store.step (s : Store) : StoreOp → Store
  | .add session => s.Add session
  | .remove id => s.Remove id

/-- The registry after a sequence of calls of `Add` and `Remove`, first call first. -/
def Store.run (s : Store) (ops : List StoreOp) : Store :=
  ops.foldl Store.step s

/-! ## internal/git: the default branch -/

/-- The end of `GetDefaultBranch`, reached when the remote HEAD gives no name: `main`
if it exists, else `master` if it exists, else `main`. -/
def defaultBranchFallback (w : World) : Traced (Except String String) := do
  let mainErr ← gitRun w ["rev-parse", "--verify", "main"]
  if mainErr.isNone then
    pure (.ok "main")
  else
    let masterErr ← gitRun w ["rev-parse", "--verify", "master"]
    if masterErr.isNone then
      pure (.ok "master")
    else
      pure (.ok "main")

/-- The function `GetDefaultBranch` of branch.go. -/
def GetDefaultBranch (w : World) : Traced (Except String String) := do
  let output ← git w ["symbolic-ref", "refs/remotes/origin/HEAD"]
  match output with
  | .ok out =>
    let ref := TrimSpace out
    let parts := Split ref '/'
    match parts.getLast? with
    | some last => pure (.ok last)
    | none => defaultBranchFallback w
  | .error _ => defaultBranchFallback w

/-! ## cmd: pruning -/

/-- The function `PruneWorktrees` of worktree.go: the error it returns, if any. -/
def PruneWorktrees (w : World) : Traced (Option String) := do
  let result ← gitCombined w ["worktree", "prune"]
  match result.2 with
  | some _ => pure (some ("failed to prune worktrees: " ++ TrimSpace result.1))
  | none => pure none

/-- The function `isDirEmptyOrOnlyGit` of prune.go. -/
def isDirEmptyOrOnlyGit (d : Disk) (dir : String) : Bool :=
  match d.ReadDir dir with
  | .error _ => false
  | .ok entries => entries.all (fun entry => entry.Name == ".git")

/-- The loop of `findEmptyOrOrphanDirs` over the entries of the base directory.
`knownPaths` holds the keys of the map of that name. -/
def orphanDirsLoop (w : World) (d : Disk) (worktreeBaseDir : String)
    (knownPaths : List String) : List DirEntry → Traced (List String)
  | [] => pure []
  | entry :: rest =>
    if !entry.IsDir then
      orphanDirsLoop w d worktreeBaseDir knownPaths rest
    else
      let dirPath := w.Join [worktreeBaseDir, entry.Name]
      match w.Abs dirPath with
      | .error _ => orphanDirsLoop w d worktreeBaseDir knownPaths rest
      | .ok absPath =>
        if knownPaths.contains absPath then
          orphanDirsLoop w d worktreeBaseDir knownPaths rest
        else do
          let isWorktree ← WorktreeExists w absPath
          let result ← orphanDirsLoop w d worktreeBaseDir knownPaths rest
          if isWorktree then
            pure result
          else if isDirEmptyOrOnlyGit d dirPath then
            pure (dirPath :: result)
          else
            pure result

/-- The function `findEmptyOrOrphanDirs` of prune.go. -/
def findEmptyOrOrphanDirs (w : World) (d : Disk) (worktreeBaseDir : String) (store : Store) :
    Traced (List String) :=
  match d.ReadDir worktreeBaseDir with
  | .error _ => pure []
  | .ok entries =>
    orphanDirsLoop w d worktreeBaseDir (store.All.map (fun sess => sess.AbsPath)) entries

/-- The loop of `runPrune` over the merged sessions: worktree removal, branch deletion
and removal from the registry for each; the registry it leaves. -/
def pruneRemoveLoop (w : World) (store : Store) : List Session → Traced Store
  | [] => pure store
  | sess :: rest => do
    let _ ← RemoveWorktree w sess.AbsPath true
    let _ ← DeleteBranch w sess.Branch false
    pruneRemoveLoop w (store.Remove sess.ID) rest

/-- The last loop of `runPrune`: `os.RemoveAll` on each directory. -/
def removeDirs (dirs : List String) : Traced Unit :=
  ⟨(), dirs.map Event.removeAll⟩

/-- The handler `runPrune`, from the loaded registry `store` on.  `baseBranch` is
`cfg.Worktree.BaseBranch` and `worktreeBaseDir` is `cfg.Worktree.WorktreeBaseDir`.  The
disk of the outcome is the disk as `Save` leaves it; the directories removed after that
are in the events. -/
def runPrune (w : World) (c : Codec) (d : Disk) (pruneForce : Bool)
    (baseBranch worktreeBaseDir : String) (store : Store) : Traced Outcome := do
  let mergedSessions ← pruneMergedSessions w baseBranch store.All
  let emptyDirs ← findEmptyOrOrphanDirs w d (w.Join [store.repoRoot, worktreeBaseDir]) store
  if mergedSessions.length = 0 ∧ emptyDirs.length = 0 then
    pure ⟨none, store, d⟩
  else
    let proceed ← if pruneForce then pure true else Confirm w "Proceed with cleanup?"
    if !proceed then
      pure ⟨none, store, d⟩
    else
      let store ← pruneRemoveLoop w store mergedSessions
      let saved ← store.Save w c d
      match saved.1 with
      | some err => pure ⟨some ("failed to update sessions: " ++ err), store, saved.2⟩
      | none =>
        let _ ← PruneWorktrees w
        let _ ← removeDirs emptyDirs
        pure ⟨none, store, saved.2⟩

/-- Whether a result of `GetStatus` is the status Merged. -/
def isStatusMerged (status : Except String StatusInfo) : Bool :=
  match status with
  | .error _ => false
  | .ok info => decide (info.Status = .StatusMerged)

/-- The test that the loop of `findEmptyOrOrphanDirs` makes on an entry of the base
directory: a directory, whose absolute path is known, is no key of `knownPaths` and is
no worktree of the repository, and which is empty or holds a `.git` entry only. -/
def isOrphanDir (w : World) (d : Disk) (worktreeBaseDir : String)
    (knownPaths : List String) (entry : DirEntry) : Bool :=
  entry.IsDir &&
    match w.Abs (w.Join [worktreeBaseDir, entry.Name]) with
    | .error _ => false
    | .ok absPath =>
      !knownPaths.contains absPath && !(WorktreeExists w absPath).val &&
        isDirEmptyOrOnlyGit d (w.Join [worktreeBaseDir, entry.Name])

/-! ## Worlds and registries the statements are evaluated on -/

/-- A session of the examples: ID `a3f8c2d1`, created first. -/
def sessA : Session :=
  { ID := "a3f8c2d1", Branch := "wt/a3f8c2d1", Path := "../worktree/a3f8c2d1",
    AbsPath := "/home/dev/worktree/a3f8c2d1", CreatedAt := 1700000000000000000 }

/-- A session of the examples whose ID shares the first two characters with `sessA`. -/
def sessB : Session :=
  { ID := "a3c10b7e", Branch := "wt/a3c10b7e", Path := "../worktree/a3c10b7e",
    AbsPath := "/home/dev/worktree/a3c10b7e", CreatedAt := 1700000500000000000 }

/-- A session of the examples whose ID shares no prefix with the others. -/
def sessC : Session :=
  { ID := "5e09d4aa", Branch := "wt/5e09d4aa", Path := "../worktree/5e09d4aa",
    AbsPath := "/home/dev/worktree/5e09d4aa", CreatedAt := 1700000900000000000 }

/-- The registry holding `sessA`, `sessB` and `sessC`. -/
def demoStore : Store :=
  (((NewStore "/home/dev/repo").Add sessA).Add sessB).Add sessC

/-- The loop of Go `filepath.Clean` over the elements of a path, for the separator
`/`: an empty element and `.` are dropped, `..` drops the element before it, is
dropped itself at the root of a rooted path, and is kept otherwise.  `kept` holds the
elements kept so far, the last one first. -/
def cleanElements (rooted : Bool) : List String → List String → List String
  | kept, [] => kept.reverse
  | kept, element :: rest =>
    if element = "" ∨ element = "." then cleanElements rooted kept rest
    else if element = ".." then
      match kept with
      | last :: before =>
        if last = ".." then cleanElements rooted (element :: kept) rest
        else cleanElements rooted before rest
      | [] =>
        if rooted then cleanElements rooted [] rest
        else cleanElements rooted [".."] rest
    else cleanElements rooted (element :: kept) rest

/-- Go `filepath.Clean` for the separator `/`. -/
def Clean (path : String) : String :=
  let body := "/".intercalate (cleanElements (HasPrefix path "/") [] (Split path '/'))
  if HasPrefix path "/" then "/" ++ body
  else if body = "" then "."
  else body

/-- Go `filepath.Join` for the separator `/`: the empty elements are dropped, the others
are joined by `/` and the result is cleaned; without elements the result is empty. -/
def Join (elem : List String) : String :=
  match elem.filter (fun e => e ≠ "") with
  | [] => ""
  | kept => Clean ("/".intercalate kept)

/-- A world given by the outputs of the four queries of the status code: the porcelain
status of `sessA`, the branches merged into `main`, the count of commits of `sessA`
ahead of `main`, and the list of worktrees.  Every other query fails, every run of git
that changes the repository succeeds, and the user answers `y`. -/
def demoWorld (status merged ahead worktrees : Except String String) : World :=
  { gitOutput := fun args =>
      if args = ["-C", "/home/dev/worktree/a3f8c2d1", "status", "--porcelain"] then status
      else if args = ["branch", "--merged", "main"] then merged
      else if args = ["rev-list", "--count", "main..wt/a3f8c2d1"] then ahead
      else if args = ["worktree", "list", "--porcelain"] then worktrees
      else .error "exit status 128",
    Abs := fun path => .ok path,
    Separator := '/',
    EqualFold := fun a b => a.data.map Char.toLower == b.data.map Char.toLower,
    gitCombinedOutput := fun _ => ("", none),
    Join := Join,
    ToLower := fun text => ⟨text.data.map Char.toLower⟩,
    ReadLine := .ok "y\n" }

/-- The output of `git worktree list --porcelain` with the main worktree only. -/
def mainWorktreeOnly : String :=
  "worktree /home/dev/repo\nHEAD 4f2a9c0e\nbranch refs/heads/main\n\n"

/-- The output of `git worktree list --porcelain` with the main worktree and the
worktree of `sessA`. -/
def twoWorktrees : String :=
  mainWorktreeOnly ++
    "worktree /home/dev/worktree/a3f8c2d1\nHEAD 91be03d7\nbranch refs/heads/wt/a3f8c2d1\n\n"

/-- The registry holding `sessA` and `sessC`. -/
def pairStore : Store :=
  ((NewStore "/home/dev/repo").Add sessA).Add sessC

/-- The JSON member for `sessA`, as `json.MarshalIndent` lays it out. -/
def memberA : String :=
  "  \"a3f8c2d1\": \x7b\n    \"id\": \"a3f8c2d1\",\n    \"branch\": \"wt/a3f8c2d1\",\n" ++
  "    \"path\": \"../worktree/a3f8c2d1\",\n" ++
  "    \"abs_path\": \"/home/dev/worktree/a3f8c2d1\",\n" ++
  "    \"created_at\": \"2023-11-14T22:13:20Z\"\n  \x7d"

/-- The JSON member for `sessC`, as `json.MarshalIndent` lays it out. -/
def memberC : String :=
  "  \"5e09d4aa\": \x7b\n    \"id\": \"5e09d4aa\",\n    \"branch\": \"wt/5e09d4aa\",\n" ++
  "    \"path\": \"../worktree/5e09d4aa\",\n" ++
  "    \"abs_path\": \"/home/dev/worktree/5e09d4aa\",\n" ++
  "    \"created_at\": \"2023-11-14T22:28:20Z\"\n  \x7d"

/-- The record of a registry holding `sessA` only. -/
def recordA : String := "\x7b\n" ++ memberA ++ "\n\x7d"

/-- The record of a registry holding `sessC` only. -/
def recordC : String := "\x7b\n" ++ memberC ++ "\n\x7d"

/-- The record of a registry holding `sessA` and `sessC`, the keys in sorted order. -/
def recordAC : String := "\x7b\n" ++ memberC ++ ",\n" ++ memberA ++ "\n\x7d"

/-- The JSON codec on the registries of the examples and on their records; on anything
else it fails. -/
def demoCodec : Codec :=
  { MarshalIndent := fun m =>
      if m.entries = [] then .ok "\x7b\x7d"
      else if m.entries = [⟨"a3f8c2d1", sessA⟩] then .ok recordA
      else if m.entries = [⟨"5e09d4aa", sessC⟩] then .ok recordC
      else if m.entries = [⟨"5e09d4aa", sessC⟩, ⟨"a3f8c2d1", sessA⟩] then .ok recordAC
      else if m.entries = [⟨"a3f8c2d1", sessA⟩, ⟨"5e09d4aa", sessC⟩] then .ok recordAC
      else .error "json: unsupported value",
    Decode := fun data =>
      if data = "null" then .ok .null
      else if data = "\x7b\x7d" then .ok (.object [])
      else if data = recordA then .ok (.object [("a3f8c2d1", sessA)])
      else if data = recordC then .ok (.object [("5e09d4aa", sessC)])
      else if data = recordAC then .ok (.object [("5e09d4aa", sessC), ("a3f8c2d1", sessA)])
      else .error "invalid character" }

/-- A disk on which the sessions file reads as `file` and every write succeeds. -/
def demoDisk (file : ReadResult) : Disk :=
  { ReadFile := fun path =>
      if path = "/home/dev/repo/.wtree/sessions.json" then file
      else .notExist "no such file or directory",
    ReadDir := fun _ => .error "no such file or directory",
    MkdirAll := fun _ => none,
    WriteFile := fun _ => none }

/-- A world for the commands run on `sessA` from the main worktree, on branch `main`:
the worktree of `sessA` is listed, its branch is 2 commits ahead and not merged.  Given
are the porcelain status of the worktree, the outcomes of the removal of the worktree,
of the deletion of the branch and of the merge, and the line the user types. -/
def commandWorld (status : Except String String)
    (removal deletion merge : String × Option String) (answer : Except String String) :
    World :=
  { demoWorld status (.ok "* main\n") (.ok "2\n") (.ok twoWorktrees) with
    gitOutput := fun args =>
      if args = ["rev-parse", "--abbrev-ref", "HEAD"] then .ok "main\n"
      else (demoWorld status (.ok "* main\n") (.ok "2\n") (.ok twoWorktrees)).gitOutput args,
    gitCombinedOutput := fun args =>
      if args = ["worktree", "remove", "/home/dev/worktree/a3f8c2d1"] then removal
      else if args = ["branch", "-d", "wt/a3f8c2d1"] then deletion
      else if args = ["merge", "wt/a3f8c2d1"] then merge
      else ("", none),
    ReadLine := answer }

/-- The outcome of a run of git that fails with the text `output`. -/
def failedRun (output : String) : String × Option String :=
  (output, some "exit status 1")

/-- The world of `commandWorld` in which `git status` fails in the worktree of `sessA`,
the removal and the deletion succeed, and the user would answer `n`. -/
def unknownStatusWorld : World :=
  commandWorld (.error "exit status 128") ("", none) ("", none) ("", none) (.ok "n\n")

/-- The world of `commandWorld` in which the worktree of `sessA` has a modified file,
the user answers `Y`, and both the removal of the worktree and the deletion of the
branch fail. -/
def failingCleanupWorld : World :=
  commandWorld (.ok " M main.go\n")
    (failedRun "fatal: cannot remove: Permission denied\n")
    (failedRun "error: branch not fully merged\n") ("", none) (.ok "Y\n")

/-- The world of `commandWorld` in which the worktree of `sessA` has no changes and the
merge of its branch fails with `output`. -/
def failingMergeWorld (output : String) : World :=
  commandWorld (.ok "") ("", none) ("", none) (failedRun output) (.ok "y\n")

/-- The output of `git worktree list --porcelain` with the main worktree and the
worktrees of `sessA` and `sessC`. -/
def threeWorktrees : String :=
  twoWorktrees ++
    "worktree /home/dev/worktree/5e09d4aa\nHEAD 0c77e1a2\nbranch refs/heads/wt/5e09d4aa\n\n"

/-- A world for `prune` on the registry of `sessA` and `sessC`: both worktrees are
listed and both branches are listed as merged into `main`; the worktree of `sessC` has
no changes, the porcelain status of the worktree of `sessA` is `statusA`. -/
def pruneWorld (statusA : Except String String) : World :=
  { demoWorld statusA (.ok "  wt/5e09d4aa\n  wt/a3f8c2d1\n* main\n") (.ok "0\n")
      (.ok threeWorktrees) with
    gitOutput := fun args =>
      if args = ["-C", "/home/dev/worktree/5e09d4aa", "status", "--porcelain"] then .ok ""
      else (demoWorld statusA (.ok "  wt/5e09d4aa\n  wt/a3f8c2d1\n* main\n") (.ok "0\n")
        (.ok threeWorktrees)).gitOutput args }

/-- A disk for `prune`: the worktree base directory holds the directories of `sessA`
and `sessC`, of which that of `sessA` is empty, a directory `scratch` with a file in
it, a directory `old` with nothing but a `.git` entry, and a file `notes.txt`. -/
def pruneDisk : Disk :=
  { demoDisk (.data recordAC) with
    ReadDir := fun path =>
      if path = "/home/dev/worktree" then
        .ok [⟨"a3f8c2d1", true⟩, ⟨"5e09d4aa", true⟩, ⟨"scratch", true⟩, ⟨"old", true⟩,
          ⟨"notes.txt", false⟩]
      else if path = "/home/dev/worktree/a3f8c2d1" then .ok []
      else if path = "/home/dev/worktree/5e09d4aa" then
        .ok [⟨".git", false⟩, ⟨"main.go", false⟩]
      else if path = "/home/dev/worktree/scratch" then .ok [⟨"draft.md", false⟩]
      else if path = "/home/dev/worktree/old" then .ok [⟨".git", false⟩]
      else .error "no such file or directory" }

/-- A world in which `git symbolic-ref refs/remotes/origin/HEAD` prints `ref` and every
other query fails. -/
def remoteHeadWorld (ref : String) : World :=
  { demoWorld (.ok "") (.ok "") (.ok "") (.ok "") with
    gitOutput := fun args =>
      if args = ["symbolic-ref", "refs/remotes/origin/HEAD"] then .ok ref
      else .error "exit status 128" }

/-! ## The session registry: resolution of a partial ID -/

theorem hasPrefix_iff (id p : String) : HasPrefix id p = true ↔ StartsWith id p := by
  unfold HasPrefix StartsWith
  rw [List.prefix_iff_eq_take]
  constructor
  · intro h
    simp only [Bool.and_eq_true, decide_eq_true_eq, beq_iff_eq] at h
    exact h.2.symm
  · intro h
    simp only [Bool.and_eq_true, decide_eq_true_eq, beq_iff_eq]
    refine ⟨?_, h.symm⟩
    have := congrArg List.length h
    rw [List.length_take] at this
    omega

theorem foldl_matches (p : String) (l : List (Σ _ : String, Session)) (acc : List Session) :
    l.foldl (fun found e => if HasPrefix e.1 p then found ++ [e.2] else found) acc
      = acc ++ (l.filter (fun e => HasPrefix e.1 p)).map (fun e => e.2) := by
  induction l generalizing acc with
  | nil => simp
  | cons e l ih =>
    simp only [List.foldl_cons, List.filter_cons]
    by_cases h : HasPrefix e.1 p = true
    · simp [h, ih]
    · simp [h, ih]

theorem findMatches_eq (s : Store) (p : String) :
    s.findMatches p = (s.sessions.entries.filter (fun e => HasPrefix e.1 p)).map (fun e => e.2) := by
  unfold Store.findMatches
  rw [foldl_matches]; simp

theorem idsWithPrefix_eq (s : Store) (p : String) :
    s.idsWithPrefix p = (s.sessions.entries.filter (fun e => HasPrefix e.1 p)).map (fun e => e.1) := by
  unfold Store.idsWithPrefix AList.keys List.keys
  rw [List.filter_map]
  rfl

theorem idsWithPrefix_nodup (s : Store) (p : String) : (s.idsWithPrefix p).Nodup :=
  List.Nodup.filter _ s.sessions.keys_nodup

theorem findMatches_length (s : Store) (p : String) :
    (s.findMatches p).length = (s.idsWithPrefix p).length := by
  rw [findMatches_eq, idsWithPrefix_eq]; simp

theorem matchingIDs_card (s : Store) (p : String) :
    (s.matchingIDs p).card = (s.idsWithPrefix p).length := by
  unfold Store.matchingIDs
  rw [← List.toFinset_card_of_nodup (idsWithPrefix_nodup s p)]
  congr 1
  ext id
  simp [Store.idsWithPrefix, hasPrefix_iff]

theorem mem_idsWithPrefix (s : Store) (p id : String) :
    id ∈ s.idsWithPrefix p ↔ id ∈ s.sessions.keys ∧ StartsWith id p := by
  simp [Store.idsWithPrefix, hasPrefix_iff]

theorem findByPartialID_ok_iff (s : Store) (p : String) (sess : Session) :
    s.FindByPartialID p = .ok sess ↔ s.findMatches p = [sess] := by
  unfold Store.FindByPartialID
  split
  · next h => simp [h]
  · next m h => simp [h, eq_comm]
  · next m n rest h => simp [h]

theorem eq_singleton_of_nodup {α : Type} (l : List α) (a : α) (hn : l.Nodup)
    (ha : a ∈ l) (hall : ∀ x ∈ l, x = a) : l = [a] := by
  match l, hn, ha, hall with
  | [], _, ha, _ => simp at ha
  | [x], _, _, hall => simp [hall x (by simp)]
  | x :: y :: t, hn, _, hall =>
    have hx := hall x (by simp)
    have hy := hall y (by simp)
    rw [hx, hy] at hn
    simp at hn

theorem existsUnique_iff_ids (s : Store) (p : String) :
    (∃! id, id ∈ s.sessions.keys ∧ StartsWith id p) ↔ ∃ id, s.idsWithPrefix p = [id] := by
  constructor
  · rintro ⟨id, hid, huniq⟩
    refine ⟨id, eq_singleton_of_nodup _ _ (idsWithPrefix_nodup s p) ?_ ?_⟩
    · exact (mem_idsWithPrefix s p id).2 hid
    · intro x hx
      exact huniq x ((mem_idsWithPrefix s p x).1 hx)
  · rintro ⟨id, hid⟩
    refine ⟨id, ?_, ?_⟩
    · apply (mem_idsWithPrefix s p id).1
      rw [hid]; simp
    · intro y hy
      have := (mem_idsWithPrefix s p y).2 hy
      rw [hid] at this
      simpa using this

theorem findMatches_singleton (s : Store) (p : String) (sess : Session)
    (h : s.findMatches p = [sess]) :
    ∃ id, s.idsWithPrefix p = [id] ∧ s.Get id = some sess := by
  rw [findMatches_eq] at h
  rw [idsWithPrefix_eq]
  generalize hL : s.sessions.entries.filter (fun e => HasPrefix e.1 p) = L at h
  match L, h with
  | [e], h =>
    refine ⟨e.1, by simp, ?_⟩
    have hmem : e ∈ s.sessions.entries := by
      have : e ∈ s.sessions.entries.filter (fun e => HasPrefix e.1 p) := by rw [hL]; simp
      exact (List.mem_filter.1 this).1
    have hs : e.2 = sess := by simpa using h
    unfold Store.Get
    rw [← hs]
    exact AList.mem_lookup_iff.2 hmem

theorem ids_singleton (s : Store) (p id : String) (h : s.idsWithPrefix p = [id]) :
    ∃ sess, s.findMatches p = [sess] := by
  have hl := findMatches_length s p
  rw [h] at hl
  match hm : s.findMatches p, hl with
  | [m], _ => exact ⟨m, rfl⟩

theorem notFound_ne_ambiguous (p q : String) (k : Nat) :
    notFoundError p ≠ ambiguousError q k := by
  intro h
  have := congrArg String.data h
  simp [notFoundError, ambiguousError, String.data_append] at this

/-- C1: `FindByPartialID p` succeeds exactly when one and only one registered ID starts
with `p`, and the session it returns is the one stored under an ID that starts with `p`
(by the first part, the only such ID).  The prefix `p` is arbitrary, so this covers every
prefix length from one character to the whole ID. -/
theorem findByPartialID_ok_iff_unique (s : Store) (p : String) :
    ((∃ sess, s.FindByPartialID p = .ok sess) ↔
        ∃! id, id ∈ s.sessions.keys ∧ StartsWith id p) ∧
    (∀ sess, s.FindByPartialID p = .ok sess →
        ∃ id, id ∈ s.sessions.keys ∧ StartsWith id p ∧ s.Get id = some sess) := by
  constructor
  · rw [existsUnique_iff_ids]
    constructor
    · rintro ⟨sess, h⟩
      obtain ⟨id, hid, _⟩ :=
        findMatches_singleton s p sess ((findByPartialID_ok_iff s p sess).1 h)
      exact ⟨id, hid⟩
    · rintro ⟨id, hid⟩
      obtain ⟨sess, h⟩ := ids_singleton s p id hid
      exact ⟨sess, (findByPartialID_ok_iff s p sess).2 h⟩
  · intro sess h
    obtain ⟨id, hid, hget⟩ :=
      findMatches_singleton s p sess ((findByPartialID_ok_iff s p sess).1 h)
    have hmem : id ∈ s.idsWithPrefix p := by rw [hid]; simp
    have := (mem_idsWithPrefix s p id).1 hmem
    exact ⟨id, this.1, this.2, hget⟩

/-- C1 at the registry of three sessions: the three-character prefix `a3f` resolves to
`sessA`, whose ID is the only one that starts with it, while a lookup of the shorter
prefix `a3`, which two IDs share, does not succeed. -/
theorem findByPartialID_ok_iff_unique_witness :
    demoStore.FindByPartialID "a3f" = .ok sessA ∧
    (∃! id, id ∈ demoStore.sessions.keys ∧ StartsWith id "a3f") ∧
    (∃ id, id ∈ demoStore.sessions.keys ∧ StartsWith id "a3f" ∧
      demoStore.Get id = some sessA) ∧
    ¬ (∃! id, id ∈ demoStore.sessions.keys ∧ StartsWith id "a3") :=
  ⟨by decide,
   (findByPartialID_ok_iff_unique demoStore "a3f").1.1 ⟨sessA, by decide⟩,
   (findByPartialID_ok_iff_unique demoStore "a3f").2 sessA (by decide),
   fun h => by
     obtain ⟨sess, hs⟩ := (findByPartialID_ok_iff_unique demoStore "a3").1.2 h
     have he : demoStore.FindByPartialID "a3" = .error (ambiguousError "a3" 2) := by decide
     rw [he] at hs
     cases hs⟩

/-- C2: when no registered ID starts with `p` the lookup fails with the not-found error
naming `p`; when two or more registered IDs start with `p` it fails with the ambiguous
error naming `p` and carrying the number of those IDs, so no session is returned; and the
not-found error differs from every ambiguous error. -/
theorem findByPartialID_errors (s : Store) (p : String) :
    ((∀ id ∈ s.sessions.keys, ¬ StartsWith id p) →
        s.FindByPartialID p = .error (notFoundError p)) ∧
    (2 ≤ (s.matchingIDs p).card →
        s.FindByPartialID p = .error (ambiguousError p (s.matchingIDs p).card)) ∧
    (∀ q k, notFoundError p ≠ ambiguousError q k) := by
  refine ⟨?_, ?_, fun q k => notFound_ne_ambiguous p q k⟩
  · intro h
    have hl : s.idsWithPrefix p = [] := by
      apply List.eq_nil_iff_forall_not_mem.2
      intro id hid
      have := (mem_idsWithPrefix s p id).1 hid
      exact h id this.1 this.2
    have hm := findMatches_length s p
    rw [hl] at hm
    unfold Store.FindByPartialID
    rw [List.length_eq_zero.1 hm]
  · intro h
    rw [matchingIDs_card, ← findMatches_length] at h ⊢
    unfold Store.FindByPartialID
    split
    · next hm => rw [hm] at h; simp at h
    · next m hm => rw [hm] at h; simp at h
    · next m n rest hm => rw [hm]

/-- C2 at the registry of three sessions: `a3` is shared by two IDs and gives the
ambiguous error with count 2; `ff` starts no ID and gives the not-found error. -/
theorem findByPartialID_errors_witness :
    (demoStore.matchingIDs "a3").card = 2 ∧
    demoStore.FindByPartialID "a3" =
      .error "ambiguous ID \x27a3\x27: matches 2 worktrees" ∧
    demoStore.FindByPartialID "ff" = .error "worktree not found: ff" := by
  have hcard : (demoStore.matchingIDs "a3").card = 2 := by decide
  have hamb := (findByPartialID_errors demoStore "a3").2.1 (by decide)
  rw [hcard] at hamb
  exact ⟨hcard, hamb, (findByPartialID_errors demoStore "ff").1 (by decide)⟩

/-! ## Reading the commit count -/

theorem foldl_digitStep_none (cs : List Char) : cs.foldl digitStep none = none := by
  induction cs with
  | nil => rfl
  | cons c cs ih => simpa [digitStep] using ih

theorem foldl_digitStep_some (cs : List Char) (n m : Nat)
    (h : cs.foldl digitStep (some n) = some m) : cs.all Char.isDigit = true := by
  induction cs generalizing n with
  | nil => rfl
  | cons c cs ih =>
    rw [List.foldl_cons] at h
    by_cases hc : c.isDigit = true
    · simp only [digitStep, hc, if_true] at h
      simp only [List.all_cons, hc, Bool.true_and]
      exact ih _ h
    · simp only [digitStep, hc, Bool.false_eq_true, if_false] at h
      rw [foldl_digitStep_none] at h
      cases h

theorem parseDigits_some (cs : List Char) (m : Nat) (h : parseDigits cs = some m) :
    (!cs.isEmpty && cs.all Char.isDigit) = true := by
  unfold parseDigits at h
  by_cases hn : cs = []
  · simp [hn] at h
  · simp only [hn, if_false] at h
    have := foldl_digitStep_some cs 0 m h
    cases cs with
    | nil => exact absurd rfl hn
    | cons c cs => simpa using this

theorem atoi_some (s : String) (n : Int) (h : Atoi s = some n) : isIntegerText s = true := by
  unfold Atoi at h
  unfold isIntegerText
  split at h
  · next ds hs =>
    cases hp : parseDigits ds with
    | none => simp [hp] at h
    | some m => exact parseDigits_some ds m hp
  · next ds hs =>
    cases hp : parseDigits ds with
    | none => simp [hp] at h
    | some m => exact parseDigits_some ds m hp
  · next ds h1 h2 =>
    cases hp : parseDigits s.data with
    | none => simp [hp] at h
    | some m =>
      exact parseDigits_some s.data m hp

/-! ## The status classifier -/

theorem hasUncommittedChanges_val (w : World) (p : String) :
    (HasUncommittedChanges w p).val =
      match w.gitOutput ["-C", p, "status", "--porcelain"] with
      | .error err => .error err
      | .ok out => .ok (decide ((TrimSpace out).data.length > 0)) := by
  unfold HasUncommittedChanges git
  simp only [bind, pure]
  cases w.gitOutput ["-C", p, "status", "--porcelain"] <;> rfl

theorem isMerged_val (w : World) (b br : String) :
    (IsMerged w b br).val =
      match w.gitOutput ["branch", "--merged", b] with
      | .error _ => .ok false
      | .ok out =>
        .ok ((Split out '\n').any (fun line => decide (TrimSpace (TrimPrefix line "*") = br))) := by
  unfold IsMerged git
  simp only [bind, pure]
  cases w.gitOutput ["branch", "--merged", b] <;> rfl

theorem getAheadCount_val (w : World) (b br : String) :
    (GetAheadCount w b br).val =
      match w.gitOutput ["rev-list", "--count", b ++ ".." ++ br] with
      | .error _ => .ok 0
      | .ok out =>
        match Atoi (TrimSpace out) with
        | none => .ok 0
        | some count => .ok count := by
  unfold GetAheadCount git
  simp only [bind, pure]
  cases w.gitOutput ["rev-list", "--count", b ++ ".." ++ br] with
  | error e => rfl
  | ok out =>
    simp only []
    cases Atoi (TrimSpace out) <;> rfl

theorem isMerged_ne_error (w : World) (b br err : String) :
    (IsMerged w b br).val ≠ .error err := by
  rw [isMerged_val]
  cases w.gitOutput ["branch", "--merged", b] <;> simp

theorem getAheadCount_ne_error (w : World) (b br err : String) :
    (GetAheadCount w b br).val ≠ .error err := by
  rw [getAheadCount_val]
  cases w.gitOutput ["rev-list", "--count", b ++ ".." ++ br] with
  | error e => simp
  | ok out =>
    simp only []
    cases Atoi (TrimSpace out) <;> simp

theorem getStatus_val (w : World) (p b br : String) :
    (GetStatus w p b br).val =
      match (HasUncommittedChanges w p).val with
      | .error err => .error err
      | .ok true => .ok { Status := .StatusUncommitted, Description := "uncommitted" }
      | .ok false =>
        match (IsMerged w b br).val with
        | .error err => .error err
        | .ok true => .ok { Status := .StatusMerged, Description := "merged" }
        | .ok false =>
          match (GetAheadCount w b br).val with
          | .error err => .error err
          | .ok n =>
            if n > 0 then
              .ok { Status := .StatusAhead, AheadCount := n, Description := "ahead " ++ Itoa n }
            else .ok { Status := .StatusClean, Description := "clean" } := by
  unfold GetStatus
  simp only [bind, pure]
  cases h1 : (HasUncommittedChanges w p).val with
  | error e => rfl
  | ok c =>
    cases c with
    | true => rfl
    | false =>
      simp only []
      cases h2 : (IsMerged w b br).val with
      | error e => rfl
      | ok m =>
        cases m with
        | true => rfl
        | false =>
          simp only []
          cases h3 : (GetAheadCount w b br).val with
          | error e => rfl
          | ok n =>
            simp only []
            split <;> rfl

/-- C3: when the uncommitted-changes check reports true, `GetStatus` returns the status
Uncommitted with the description "uncommitted", in every world, hence whatever the
merged check and the ahead count report. -/
theorem getStatus_uncommitted (w : World) (worktreePath baseBranch branch : String)
    (h : (HasUncommittedChanges w worktreePath).val = .ok true) :
    (GetStatus w worktreePath baseBranch branch).val =
      .ok { Status := .StatusUncommitted, AheadCount := 0, Description := "uncommitted" } := by
  rw [getStatus_val, h]

/-- C3 in a world where the worktree of `sessA` has a modified file while its branch is
listed as merged into `main` and is 3 commits ahead of it: the status is Uncommitted. -/
theorem getStatus_uncommitted_witness :
    (IsMerged (demoWorld (.ok " M main.go\n") (.ok "  wt/a3f8c2d1\n* main\n") (.ok "3\n")
        (.ok twoWorktrees)) "main" sessA.Branch).val = .ok true ∧
    (GetAheadCount (demoWorld (.ok " M main.go\n") (.ok "  wt/a3f8c2d1\n* main\n") (.ok "3\n")
        (.ok twoWorktrees)) "main" sessA.Branch).val = .ok 3 ∧
    (GetStatus (demoWorld (.ok " M main.go\n") (.ok "  wt/a3f8c2d1\n* main\n") (.ok "3\n")
        (.ok twoWorktrees)) sessA.AbsPath "main" sessA.Branch).val =
      .ok { Status := .StatusUncommitted, AheadCount := 0, Description := "uncommitted" } :=
  ⟨by decide, by decide, getStatus_uncommitted _ _ _ _ (by decide)⟩

/-- C4: when the uncommitted-changes check reports false and the merged check reports
true, `GetStatus` returns the status Merged with the description "merged", in every
world, hence for every value of the ahead count. -/
theorem getStatus_merged (w : World) (worktreePath baseBranch branch : String)
    (hclean : (HasUncommittedChanges w worktreePath).val = .ok false)
    (hmerged : (IsMerged w baseBranch branch).val = .ok true) :
    (GetStatus w worktreePath baseBranch branch).val =
      .ok { Status := .StatusMerged, AheadCount := 0, Description := "merged" } := by
  rw [getStatus_val, hclean]
  simp only []
  rw [hmerged]

/-- C4 in a world where the worktree of `sessA` has no changes, its branch is listed as
merged into `main` and the ahead count is 3: the status is Merged. -/
theorem getStatus_merged_witness :
    (GetAheadCount (demoWorld (.ok "") (.ok "  wt/a3f8c2d1\n* main\n") (.ok "3\n")
        (.ok twoWorktrees)) "main" sessA.Branch).val = .ok 3 ∧
    (GetStatus (demoWorld (.ok "") (.ok "  wt/a3f8c2d1\n* main\n") (.ok "3\n")
        (.ok twoWorktrees)) sessA.AbsPath "main" sessA.Branch).val =
      .ok { Status := .StatusMerged, AheadCount := 0, Description := "merged" } :=
  ⟨by decide, getStatus_merged _ _ _ _ (by decide) (by decide)⟩

/-- C5: when the uncommitted check and the merged check report false and the ahead
count `n` is positive, `GetStatus` returns the status Ahead with `AheadCount = n` and
the description "ahead " followed by the decimal rendering of `n`; and every result of
`GetStatus` with another status has `AheadCount = 0`. -/
theorem getStatus_ahead (w : World) (worktreePath baseBranch branch : String) :
    (∀ n : Int, (HasUncommittedChanges w worktreePath).val = .ok false →
      (IsMerged w baseBranch branch).val = .ok false →
      (GetAheadCount w baseBranch branch).val = .ok n → 0 < n →
      (GetStatus w worktreePath baseBranch branch).val =
        .ok { Status := .StatusAhead, AheadCount := n, Description := "ahead " ++ Itoa n }) ∧
    (∀ info, (GetStatus w worktreePath baseBranch branch).val = .ok info →
      info.Status ≠ .StatusAhead → info.AheadCount = 0) := by
  constructor
  · intro n h1 h2 h3 hn
    rw [getStatus_val, h1]
    simp only []
    rw [h2]
    simp only []
    rw [h3]
    simp only []
    rw [if_pos hn]
  · intro info h hne
    rw [getStatus_val] at h
    split at h
    · cases h
    · cases h; rfl
    · split at h
      · cases h
      · cases h; rfl
      · split at h
        · cases h
        · split at h
          · cases h; exact absurd rfl hne
          · cases h; rfl

/-- C5 in a world where the worktree of `sessA` has no changes, its branch is not listed
as merged and is 12 commits ahead of `main`: the status is Ahead, the count 12 and the
description "ahead 12". -/
theorem getStatus_ahead_witness :
    (GetStatus (demoWorld (.ok "") (.ok "* main\n") (.ok "12\n") (.ok twoWorktrees))
        sessA.AbsPath "main" sessA.Branch).val =
      .ok { Status := .StatusAhead, AheadCount := 12, Description := "ahead 12" } :=
  (getStatus_ahead (demoWorld (.ok "") (.ok "* main\n") (.ok "12\n") (.ok twoWorktrees))
    sessA.AbsPath "main" sessA.Branch).1 12 (by decide) (by decide) (by decide) (by decide)

/-- C6: `GetStatus` returns the status Clean exactly when the uncommitted check succeeds
with false, the merged check is false and the ahead count is not greater than 0; the
result then has the description "clean" and the count 0. -/
theorem getStatus_clean_iff (w : World) (worktreePath baseBranch branch : String) :
    ((∃ info, (GetStatus w worktreePath baseBranch branch).val = .ok info ∧
        info.Status = .StatusClean) ↔
      ((HasUncommittedChanges w worktreePath).val = .ok false ∧
        (IsMerged w baseBranch branch).val = .ok false ∧
        ∃ n : Int, (GetAheadCount w baseBranch branch).val = .ok n ∧ ¬ n > 0)) ∧
    (∀ info, (GetStatus w worktreePath baseBranch branch).val = .ok info →
      info.Status = .StatusClean →
      info = { Status := .StatusClean, AheadCount := 0, Description := "clean" }) := by
  constructor
  · constructor
    · rintro ⟨info, h, hs⟩
      rw [getStatus_val] at h
      split at h
      · cases h
      · cases h; cases hs
      · next h1 =>
        split at h
        · cases h
        · cases h; cases hs
        · next h2 =>
          split at h
          · cases h
          · next n h3 =>
            split at h
            · cases h; cases hs
            · next hn => exact ⟨h1, h2, n, h3, hn⟩
    · rintro ⟨h1, h2, n, h3, hn⟩
      refine ⟨{ Status := .StatusClean, AheadCount := 0, Description := "clean" }, ?_, rfl⟩
      rw [getStatus_val, h1]
      simp only []
      rw [h2]
      simp only []
      rw [h3]
      simp only []
      rw [if_neg hn]
  · intro info h hs
    rw [getStatus_val] at h
    split at h
    · cases h
    · cases h; cases hs
    · split at h
      · cases h
      · cases h; cases hs
      · split at h
        · cases h
        · split at h
          · cases h; cases hs
          · cases h; rfl

/-- C6 in a world where the worktree of `sessA` has no changes, its branch is not listed
as merged and the ahead count is 0: the status is Clean. -/
theorem getStatus_clean_iff_witness :
    ∃ info, (GetStatus (demoWorld (.ok "") (.ok "* main\n") (.ok "0\n") (.ok twoWorktrees))
        sessA.AbsPath "main" sessA.Branch).val = .ok info ∧ info.Status = .StatusClean :=
  (getStatus_clean_iff (demoWorld (.ok "") (.ok "* main\n") (.ok "0\n") (.ok twoWorktrees))
    sessA.AbsPath "main" sessA.Branch).1.2 ⟨by decide, by decide, 0, by decide, by decide⟩

/-! ## The command handlers and the existence check -/

theorem worktreeExists_events (w : World) (path : String) :
    ∀ e ∈ (WorktreeExists w path).events, e = Event.git ["worktree", "list", "--porcelain"] := by
  unfold WorktreeExists git
  cases w.Abs path with
  | error err => simp [pure]
  | ok absPath =>
    simp only [bind, pure]
    cases w.gitOutput ["worktree", "list", "--porcelain"] <;> simp

theorem lsStatusStr_missing (w : World) (baseBranch : String) (sess : Session)
    (h : (WorktreeExists w sess.AbsPath).val = false) :
    (lsStatusStr w baseBranch sess).val = ⟨.FgHiBlack, "stale"⟩ ∧
    (lsStatusStr w baseBranch sess).events = (WorktreeExists w sess.AbsPath).events := by
  unfold lsStatusStr
  simp only [bind, pure, h]
  simp

theorem lsRows_val (w : World) (baseBranch : String) (relativeTime : Session → String)
    (sessions : List Session) :
    (lsRows w baseBranch relativeTime sessions).val =
      sessions.map (fun sess =>
        ⟨sess.ID, sess.Branch, relativeTime sess, (lsStatusStr w baseBranch sess).val,
          sess.Path⟩) := by
  induction sessions with
  | nil => rfl
  | cons sess rest ih =>
    unfold lsRows
    simp only [bind, pure, List.map_cons, ih]

theorem lsRows_events (w : World) (baseBranch : String) (relativeTime : Session → String)
    (sessions : List Session) :
    (lsRows w baseBranch relativeTime sessions).events =
      (sessions.map (fun sess => (lsStatusStr w baseBranch sess).events)).flatten := by
  induction sessions with
  | nil => rfl
  | cons sess rest ih =>
    unfold lsRows
    simp only [bind, pure, List.map_cons, List.flatten_cons, ih, List.append_nil]

/-- C7: in the listing, a tracked session whose worktree-existence check is false gets
the row with the status "stale"; computing its status runs nothing but the existence
check itself (`git worktree list --porcelain`), so the uncommitted, merged and ahead
queries are not consulted for it and their answers cannot matter.  The runs of the whole
listing are those of its sessions, one session after the other. -/
theorem ls_stale_without_status_queries (w : World) (baseBranch : String)
    (relativeTime : Session → String) (sessions : List Session) (sess : Session)
    (hmem : sess ∈ sessions) (h : (WorktreeExists w sess.AbsPath).val = false) :
    (⟨sess.ID, sess.Branch, relativeTime sess, ⟨.FgHiBlack, "stale"⟩, sess.Path⟩ : LsRow) ∈
        (lsRows w baseBranch relativeTime sessions).val ∧
    (lsStatusStr w baseBranch sess).events = (WorktreeExists w sess.AbsPath).events ∧
    (∀ e ∈ (lsStatusStr w baseBranch sess).events,
        e = Event.git ["worktree", "list", "--porcelain"]) ∧
    (lsRows w baseBranch relativeTime sessions).events =
      (sessions.map (fun s => (lsStatusStr w baseBranch s).events)).flatten := by
  obtain ⟨hval, hev⟩ := lsStatusStr_missing w baseBranch sess h
  refine ⟨?_, hev, ?_, lsRows_events w baseBranch relativeTime sessions⟩
  · rw [lsRows_val]
    apply List.mem_map.2
    exact ⟨sess, hmem, by rw [hval]⟩
  · rw [hev]
    exact worktreeExists_events w sess.AbsPath

/-- C7 in a world where only the main worktree is left while every status query on
`sessA` would succeed (a change, merged, 3 ahead): the listing shows `sessA` as stale
and has run `git worktree list --porcelain` once and nothing else. -/
theorem ls_stale_without_status_queries_witness :
    (GetStatus (demoWorld (.ok " M main.go\n") (.ok "  wt/a3f8c2d1\n* main\n") (.ok "3\n")
        (.ok mainWorktreeOnly)) sessA.AbsPath "main" sessA.Branch).val =
      .ok { Status := .StatusUncommitted, AheadCount := 0, Description := "uncommitted" } ∧
    (⟨"a3f8c2d1", "wt/a3f8c2d1", "just now", ⟨.FgHiBlack, "stale"⟩,
        "../worktree/a3f8c2d1"⟩ : LsRow) ∈
      (lsRows (demoWorld (.ok " M main.go\n") (.ok "  wt/a3f8c2d1\n* main\n") (.ok "3\n")
        (.ok mainWorktreeOnly)) "main" (fun _ => "just now") [sessA]).val ∧
    (lsRows (demoWorld (.ok " M main.go\n") (.ok "  wt/a3f8c2d1\n* main\n") (.ok "3\n")
        (.ok mainWorktreeOnly)) "main" (fun _ => "just now") [sessA]).events =
      [Event.git ["worktree", "list", "--porcelain"]] :=
  ⟨by decide,
   (ls_stale_without_status_queries
      (demoWorld (.ok " M main.go\n") (.ok "  wt/a3f8c2d1\n* main\n") (.ok "3\n")
        (.ok mainWorktreeOnly))
      "main" (fun _ => "just now") [sessA] sessA (by simp) (by decide)).1,
   by decide⟩

/-- C8 fails for `prune`: with `sessA` tracked and only the main worktree left, the
existence check for the path of `sessA` is false, and the listing accordingly runs the
existence check and nothing else; the first loop of `runPrune` runs no existence check
and calls `GetStatus`, whose query `git -C <path> status --porcelain` is run on the
missing worktree. -/
theorem prune_calls_getStatus_unchecked :
    (WorktreeExists (demoWorld (.error "exit status 128") (.ok "* main\n") (.ok "0\n")
        (.ok mainWorktreeOnly)) sessA.AbsPath).val = false ∧
    (lsStatusStr (demoWorld (.error "exit status 128") (.ok "* main\n") (.ok "0\n")
        (.ok mainWorktreeOnly)) "main" sessA).events =
      [Event.git ["worktree", "list", "--porcelain"]] ∧
    (pruneMergedSessions (demoWorld (.error "exit status 128") (.ok "* main\n") (.ok "0\n")
        (.ok mainWorktreeOnly)) "main" [sessA]).events =
      (GetStatus (demoWorld (.error "exit status 128") (.ok "* main\n") (.ok "0\n")
        (.ok mainWorktreeOnly)) sessA.AbsPath "main" sessA.Branch).events ∧
    (pruneMergedSessions (demoWorld (.error "exit status 128") (.ok "* main\n") (.ok "0\n")
        (.ok mainWorktreeOnly)) "main" [sessA]).events =
      [Event.git ["-C", "/home/dev/worktree/a3f8c2d1", "status", "--porcelain"]] := by
  refine ⟨by decide, by decide, by decide, by decide⟩

/-- C9 fails for the marker `+`: on the listing `* main`, `+ wt/a3f8c2d1`, in which the
branch of `sessA` is marked as checked out in a linked worktree, `IsMerged` answers
false for that branch, while it answers true when the same branch is listed with two
spaces or with `* `. -/
theorem isMerged_misses_linked_worktree_marker :
    (IsMerged (demoWorld (.ok "") (.ok "* main\n+ wt/a3f8c2d1\n") (.ok "0\n")
        (.ok twoWorktrees)) "main" "wt/a3f8c2d1").val = .ok false ∧
    (IsMerged (demoWorld (.ok "") (.ok "* main\n  wt/a3f8c2d1\n") (.ok "0\n")
        (.ok twoWorktrees)) "main" "wt/a3f8c2d1").val = .ok true ∧
    (IsMerged (demoWorld (.ok "") (.ok "  main\n* wt/a3f8c2d1\n") (.ok "0\n")
        (.ok twoWorktrees)) "main" "wt/a3f8c2d1").val = .ok true := by
  refine ⟨by decide, by decide, by decide⟩

/-- C10: `GetAheadCount` returns 0 and no error when the commit-count query fails or
when its output, white space trimmed, is not an integer; `IsMerged` returns false and no
error when the merged-branches query fails; neither of the two ever returns an error;
and `GetStatus` fails exactly when the uncommitted-changes check fails, with the error
of that check, which is the error of the run of `git status`. -/
theorem status_queries_lenient (w : World) (worktreePath baseBranch branch : String) :
    (∀ err, w.gitOutput ["rev-list", "--count", baseBranch ++ ".." ++ branch] = .error err →
      (GetAheadCount w baseBranch branch).val = .ok 0) ∧
    (∀ out, w.gitOutput ["rev-list", "--count", baseBranch ++ ".." ++ branch] = .ok out →
      isIntegerText (TrimSpace out) = false →
      (GetAheadCount w baseBranch branch).val = .ok 0) ∧
    (∀ err, w.gitOutput ["branch", "--merged", baseBranch] = .error err →
      (IsMerged w baseBranch branch).val = .ok false) ∧
    (∀ err, (GetAheadCount w baseBranch branch).val ≠ .error err) ∧
    (∀ err, (IsMerged w baseBranch branch).val ≠ .error err) ∧
    (∀ err, (GetStatus w worktreePath baseBranch branch).val = .error err ↔
      (HasUncommittedChanges w worktreePath).val = .error err) ∧
    (∀ err, (HasUncommittedChanges w worktreePath).val = .error err ↔
      w.gitOutput ["-C", worktreePath, "status", "--porcelain"] = .error err) := by
  refine ⟨?_, ?_, ?_, fun err => getAheadCount_ne_error w baseBranch branch err,
    fun err => isMerged_ne_error w baseBranch branch err, ?_, ?_⟩
  · intro err h
    rw [getAheadCount_val, h]
  · intro out h hint
    rw [getAheadCount_val, h]
    simp only []
    cases ha : Atoi (TrimSpace out) with
    | none => rfl
    | some n =>
      have := atoi_some _ _ ha
      rw [hint] at this
      cases this
  · intro err h
    rw [isMerged_val, h]
  · intro err
    rw [getStatus_val]
    constructor
    · intro h
      split at h
      · next e h1 => cases h; exact h1
      · cases h
      · split at h
        · next e h2 => exact absurd h2 (isMerged_ne_error w baseBranch branch e)
        · cases h
        · split at h
          · next e h3 => exact absurd h3 (getAheadCount_ne_error w baseBranch branch e)
          · split at h <;> cases h
    · intro h
      rw [h]
  · intro err
    rw [hasUncommittedChanges_val]
    cases w.gitOutput ["-C", worktreePath, "status", "--porcelain"] <;> simp

/-- C10 in a world where the worktree of `sessA` has no changes while the merged-branches
query fails and the commit count comes back as text that is no number: the two checks
answer false and 0, and `GetStatus` succeeds with Clean; and in a world where `git
status` fails, `GetStatus` fails with that error. -/
theorem status_queries_lenient_witness :
    (GetAheadCount (demoWorld (.ok "") (.error "exit status 128") (.ok "fatal\n")
        (.ok twoWorktrees)) "main" "wt/a3f8c2d1").val = .ok 0 ∧
    (IsMerged (demoWorld (.ok "") (.error "exit status 128") (.ok "fatal\n")
        (.ok twoWorktrees)) "main" "wt/a3f8c2d1").val = .ok false ∧
    (GetStatus (demoWorld (.ok "") (.error "exit status 128") (.ok "fatal\n")
        (.ok twoWorktrees)) sessA.AbsPath "main" "wt/a3f8c2d1").val =
      .ok { Status := .StatusClean, AheadCount := 0, Description := "clean" } ∧
    (GetStatus (demoWorld (.error "exit status 128") (.ok "") (.ok "")
        (.ok twoWorktrees)) sessA.AbsPath "main" "wt/a3f8c2d1").val =
      .error "exit status 128" :=
  ⟨(status_queries_lenient (demoWorld (.ok "") (.error "exit status 128") (.ok "fatal\n")
      (.ok twoWorktrees)) sessA.AbsPath "main" "wt/a3f8c2d1").2.1 "fatal\n"
      (by decide) (by decide),
   (status_queries_lenient (demoWorld (.ok "") (.error "exit status 128") (.ok "fatal\n")
      (.ok twoWorktrees)) sessA.AbsPath "main" "wt/a3f8c2d1").2.2.1 "exit status 128"
      (by decide),
   by decide,
   ((status_queries_lenient (demoWorld (.error "exit status 128") (.ok "") (.ok "")
      (.ok twoWorktrees)) sessA.AbsPath "main" "wt/a3f8c2d1").2.2.2.2.2.1
      "exit status 128").2 (by decide)⟩

/-! ## The session registry: adding and removing -/

theorem count_eq_keys_length (s : Store) : s.Count = s.sessions.keys.length := by
  unfold Store.Count AList.keys List.keys
  simp

theorem get_eq_none_iff (s : Store) (id : String) : s.Get id = none ↔ id ∉ s.sessions.keys := by
  unfold Store.Get
  rw [AList.lookup_eq_none, AList.mem_keys]

/-- C13: `Remove id` leaves no session under `id`, leaves the entry under every other ID
as it was (an ID that merely starts with `id` is another ID), and keeps the repository
root; when no session is stored under `id` the registry is unchanged in contents and
size, and when one is the size drops by exactly one. -/
theorem remove_exact_id (s : Store) (id : String) :
    (s.Remove id).Get id = none ∧
    (∀ other, other ≠ id → (s.Remove id).Get other = s.Get other) ∧
    (s.Remove id).repoRoot = s.repoRoot ∧
    (s.Get id = none → s.Remove id = s ∧ (s.Remove id).Count = s.Count) ∧
    (∀ sess, s.Get id = some sess → (s.Remove id).Count + 1 = s.Count) := by
  refine ⟨AList.lookup_erase id s.sessions, ?_, rfl, ?_, ?_⟩
  · intro other h
    exact AList.lookup_erase_ne h
  · intro h
    have hk : id ∉ s.sessions.entries.keys := (get_eq_none_iff s id).1 h
    have he : s.sessions.erase id = s.sessions := by
      apply AList.ext
      exact List.kerase_of_not_mem_keys hk
    have hs : s.Remove id = s := by
      cases s
      simp only [Store.Remove] at he ⊢
      rw [he]
    exact ⟨hs, by rw [hs]⟩
  · intro sess h
    have hk : id ∈ s.sessions.keys := by
      by_contra hn
      rw [(get_eq_none_iff s id).2 hn] at h
      cases h
    rw [count_eq_keys_length, count_eq_keys_length]
    show (s.sessions.erase id).keys.length + 1 = s.sessions.keys.length
    rw [AList.keys_erase, List.length_erase_of_mem hk]
    have : 0 < s.sessions.keys.length := List.length_pos_of_mem hk
    omega

/-- C13 at the registry of three sessions: removing `a3f8c2d1` leaves `a3c10b7e` in
place; removing `a3`, a prefix of two IDs under which nothing is stored, changes
nothing. -/
theorem remove_exact_id_witness :
    (demoStore.Remove "a3f8c2d1").Get "a3f8c2d1" = none ∧
    (demoStore.Remove "a3f8c2d1").Get "a3c10b7e" = some sessB ∧
    (demoStore.Remove "a3f8c2d1").Count = 2 ∧
    demoStore.Remove "a3" = demoStore ∧
    (demoStore.Remove "a3").Count = 3 :=
  ⟨(remove_exact_id demoStore "a3f8c2d1").1,
   ((remove_exact_id demoStore "a3f8c2d1").2.1 "a3c10b7e" (by decide)).trans (by decide),
   by decide,
   ((remove_exact_id demoStore "a3").2.2.2.1 (by decide)).1,
   ((remove_exact_id demoStore "a3").2.2.2.1 (by decide)).2.trans (by decide)⟩

/-- On a store whose map is allocated: after `Add session`, `Get session.ID` returns
`session`, the entry under every other ID is as it was, and the repository root is
kept; `Count` grows by one when no session was stored under `session.ID` and is
unchanged when one was. -/
theorem add_inserts_or_overwrites (s : Store) (session : Session) :
    (s.Add session).Get session.ID = some session ∧
    (∀ other, other ≠ session.ID → (s.Add session).Get other = s.Get other) ∧
    (s.Add session).repoRoot = s.repoRoot ∧
    (s.Get session.ID = none → (s.Add session).Count = s.Count + 1) ∧
    (∀ old, s.Get session.ID = some old → (s.Add session).Count = s.Count) := by
  refine ⟨AList.lookup_insert s.sessions, ?_, rfl, ?_, ?_⟩
  · intro other h
    exact AList.lookup_insert_ne h
  · intro h
    have hk : session.ID ∉ s.sessions.keys := (get_eq_none_iff s session.ID).1 h
    rw [count_eq_keys_length, count_eq_keys_length]
    show (s.sessions.insert session.ID session).keys.length = s.sessions.keys.length + 1
    rw [AList.keys_insert, List.erase_of_not_mem hk]
    rfl
  · intro old h
    have hk : session.ID ∈ s.sessions.keys := by
      by_contra hn
      rw [(get_eq_none_iff s session.ID).2 hn] at h
      cases h
    rw [count_eq_keys_length, count_eq_keys_length]
    show (s.sessions.insert session.ID session).keys.length = s.sessions.keys.length
    rw [AList.keys_insert, List.length_cons, List.length_erase_of_mem hk]
    have : 0 < s.sessions.keys.length := List.length_pos_of_mem hk
    omega

/-- At the registry of three sessions, adding a session under the new ID `0badcafe`
gives four sessions; adding one under the ID of `sessA` with another branch overwrites
`sessA` and keeps three. -/
theorem add_inserts_or_overwrites_witness :
    (demoStore.Add { sessA with ID := "0badcafe" }).Count = 4 ∧
    (demoStore.Add { sessA with Branch := "wt/other" }).Get "a3f8c2d1" =
      some { sessA with Branch := "wt/other" } ∧
    (demoStore.Add { sessA with Branch := "wt/other" }).Get "a3c10b7e" = some sessB ∧
    (demoStore.Add { sessA with Branch := "wt/other" }).Count = 3 :=
  ⟨((add_inserts_or_overwrites demoStore { sessA with ID := "0badcafe" }).2.2.2.1
      (by decide)).trans (by decide),
   (add_inserts_or_overwrites demoStore { sessA with Branch := "wt/other" }).1,
   ((add_inserts_or_overwrites demoStore { sessA with Branch := "wt/other" }).2.1
      "a3c10b7e" (by decide)).trans (by decide),
   ((add_inserts_or_overwrites demoStore { sessA with Branch := "wt/other" }).2.2.2.2
      sessA (by decide)).trans (by decide)⟩

theorem loadedStore_add_allocated (s : LoadedStore) (session : Session)
    (h : s.nilMap = false) : s.Add session = some (s.toStore.Add session) := by
  unfold LoadedStore.Add
  rw [h]
  rfl

theorem loadedStore_add_nil (s : LoadedStore) (session : Session)
    (h : s.nilMap = true) : s.Add session = none := by
  unfold LoadedStore.Add
  rw [h]
  rfl

theorem load_null (s : Store) (w : World) (c : Codec) (d : Disk) (data : String)
    (hread : d.ReadFile (s.sessionsPath w) = .data data)
    (hdecode : c.Decode data = .ok .null) :
    s.Load w c d = .ok ⟨{ s with sessions := ∅ }, true⟩ := by
  unfold Store.Load Unmarshal
  rw [hread]
  simp only []
  rw [hdecode]

/-- C14 fails in the code for the registry that `Load` leaves when the sessions file
holds the JSON text `null`: `Load` into the store freshly made by `NewStore` succeeds
and leaves the map nil, a registry of no sessions, and `Add` of `sessA` to it panics
on the assignment to the nil map, so that no registry holds `sessA` afterwards.  With
the sessions file missing, or holding the empty object, the same `Load` leaves the
map allocated, and `Add` of `sessA` gives the registry of `sessA` alone. -/
theorem add_panics_after_null_record :
    demoCodec.Decode "null" = .ok .null ∧
    ((NewStore "/home/dev/repo").Load (demoWorld (.ok "") (.ok "") (.ok "") (.ok ""))
        demoCodec (demoDisk (.data "null"))).map
        (fun s => (s.nilMap, s.Count, s.Get "a3f8c2d1", (s.Add sessA).isSome)) =
      .ok (true, 0, none, false) ∧
    ((NewStore "/home/dev/repo").Load (demoWorld (.ok "") (.ok "") (.ok "") (.ok ""))
        demoCodec (demoDisk (.data "null"))).map
        (fun s => (s.Add sessA).map (fun added => added.Get "a3f8c2d1")) =
      .ok none ∧
    ((NewStore "/home/dev/repo").Load (demoWorld (.ok "") (.ok "") (.ok "") (.ok ""))
        demoCodec (demoDisk (.notExist "no such file or directory"))).map
        (fun s => (s.nilMap, s.Count,
          (s.Add sessA).map (fun added => (added.Get "a3f8c2d1", added.Count)))) =
      .ok (false, 0, some (some sessA, 1)) ∧
    ((NewStore "/home/dev/repo").Load (demoWorld (.ok "") (.ok "") (.ok "") (.ok ""))
        demoCodec (demoDisk (.data "\x7b\x7d"))).map
        (fun s => (s.nilMap, s.Count,
          (s.Add sessA).map (fun added => (added.Get "a3f8c2d1", added.Count)))) =
      .ok (false, 0, some (some sessA, 1)) := by
  refine ⟨by decide, by decide, by decide, by decide, by decide⟩

/-! ## A status that cannot be computed -/

theorem getStatus_events_of_error (w : World) (p b br err : String)
    (h : (HasUncommittedChanges w p).val = .error err) :
    (GetStatus w p b br).events = (HasUncommittedChanges w p).events := by
  unfold GetStatus
  simp only [bind, pure]
  rw [h]
  simp

theorem lsStatusStr_of_error (w : World) (baseBranch : String) (sess : Session) (err : String)
    (hex : (WorktreeExists w sess.AbsPath).val = true)
    (h : (GetStatus w sess.AbsPath baseBranch sess.Branch).val = .error err) :
    (lsStatusStr w baseBranch sess).val = ⟨.FgHiBlack, "unknown"⟩ := by
  unfold lsStatusStr
  simp only [bind, pure, hex, h]
  rfl

/-- C11: when the uncommitted-changes query fails, `GetStatus` returns that failure and
no `StatusInfo`, having run no further query; the listing, which asks for the status of
the sessions whose worktree exists, then shows the session with the status "unknown",
and in no case with the text "clean". -/
theorem status_failure_listed_unknown (w : World) (baseBranch : String)
    (relativeTime : Session → String) (sessions : List Session) (sess : Session) (err : String)
    (hmem : sess ∈ sessions)
    (h : (HasUncommittedChanges w sess.AbsPath).val = .error err) :
    (GetStatus w sess.AbsPath baseBranch sess.Branch).val = .error err ∧
    (∀ info, (GetStatus w sess.AbsPath baseBranch sess.Branch).val ≠ .ok info) ∧
    (GetStatus w sess.AbsPath baseBranch sess.Branch).events =
      (HasUncommittedChanges w sess.AbsPath).events ∧
    ((WorktreeExists w sess.AbsPath).val = true →
      (lsStatusStr w baseBranch sess).val = ⟨.FgHiBlack, "unknown"⟩ ∧
      (⟨sess.ID, sess.Branch, relativeTime sess, ⟨.FgHiBlack, "unknown"⟩, sess.Path⟩ : LsRow) ∈
        (lsRows w baseBranch relativeTime sessions).val) ∧
    (lsStatusStr w baseBranch sess).val.text ≠ "clean" := by
  have hst : (GetStatus w sess.AbsPath baseBranch sess.Branch).val = .error err := by
    rw [getStatus_val, h]
  have hun : (WorktreeExists w sess.AbsPath).val = true →
      (lsStatusStr w baseBranch sess).val = ⟨.FgHiBlack, "unknown"⟩ :=
    fun hex => lsStatusStr_of_error w baseBranch sess err hex hst
  refine ⟨hst, ?_, getStatus_events_of_error w _ _ _ err h, ?_, ?_⟩
  · intro info hi
    rw [hst] at hi
    cases hi
  · intro hex
    refine ⟨hun hex, ?_⟩
    rw [lsRows_val]
    apply List.mem_map.2
    exact ⟨sess, hmem, by rw [hun hex]⟩
  · cases hex : (WorktreeExists w sess.AbsPath).val with
    | true =>
      rw [hun hex]
      decide
    | false =>
      rw [(lsStatusStr_missing w baseBranch sess hex).1]
      decide

/-- C11 in a world where the worktree of `sessA` is listed by git while `git status`
fails in it, the merged listing names its branch and 3 commits are ahead: `GetStatus`
fails with the error of `git status` after that one run, and the listing shows
"unknown". -/
theorem status_failure_listed_unknown_witness :
    (GetStatus (demoWorld (.error "exit status 128") (.ok "  wt/a3f8c2d1\n") (.ok "3\n")
        (.ok twoWorktrees)) sessA.AbsPath "main" sessA.Branch).val = .error "exit status 128" ∧
    (GetStatus (demoWorld (.error "exit status 128") (.ok "  wt/a3f8c2d1\n") (.ok "3\n")
        (.ok twoWorktrees)) sessA.AbsPath "main" sessA.Branch).events =
      [Event.git ["-C", "/home/dev/worktree/a3f8c2d1", "status", "--porcelain"]] ∧
    (⟨"a3f8c2d1", "wt/a3f8c2d1", "2 hours ago", ⟨.FgHiBlack, "unknown"⟩,
        "../worktree/a3f8c2d1"⟩ : LsRow) ∈
      (lsRows (demoWorld (.error "exit status 128") (.ok "  wt/a3f8c2d1\n") (.ok "3\n")
        (.ok twoWorktrees)) "main" (fun _ => "2 hours ago") [sessA]).val :=
  ⟨(status_failure_listed_unknown
      (demoWorld (.error "exit status 128") (.ok "  wt/a3f8c2d1\n") (.ok "3\n")
        (.ok twoWorktrees))
      "main" (fun _ => "2 hours ago") [sessA] sessA "exit status 128" (by simp)
      (by decide)).1,
   by decide,
   ((status_failure_listed_unknown
      (demoWorld (.error "exit status 128") (.ok "  wt/a3f8c2d1\n") (.ok "3\n")
        (.ok twoWorktrees))
      "main" (fun _ => "2 hours ago") [sessA] sessA "exit status 128" (by simp)
      (by decide)).2.2.2.1 (by decide)).2⟩

set_option maxRecDepth 100000

/-! ## The handlers `runRm` and `runMerge` -/

theorem hasUncommittedChanges_events (w : World) (p : String) :
    (HasUncommittedChanges w p).events = [Event.git ["-C", p, "status", "--porcelain"]] := by
  unfold HasUncommittedChanges git
  simp only [bind, pure]
  cases w.gitOutput ["-C", p, "status", "--porcelain"] <;> rfl

theorem isMerged_events (w : World) (b br : String) :
    (IsMerged w b br).events = [Event.git ["branch", "--merged", b]] := by
  unfold IsMerged git
  simp only [bind, pure]
  cases w.gitOutput ["branch", "--merged", b] <;> rfl

theorem getAheadCount_events (w : World) (b br : String) :
    (GetAheadCount w b br).events = [Event.git ["rev-list", "--count", b ++ ".." ++ br]] := by
  unfold GetAheadCount git
  simp only [bind, pure]
  cases w.gitOutput ["rev-list", "--count", b ++ ".." ++ br] with
  | error e => rfl
  | ok out =>
    simp only []
    cases Atoi (TrimSpace out) <;> rfl

theorem getStatus_events_git (w : World) (p b br : String) :
    ∀ e ∈ (GetStatus w p b br).events, ∃ args, e = Event.git args := by
  have h1 := hasUncommittedChanges_events w p
  have h2 := isMerged_events w b br
  have h3 := getAheadCount_events w b br
  unfold GetStatus
  simp only [bind, pure]
  rw [h1]
  cases (HasUncommittedChanges w p).val with
  | error e => simp
  | ok c =>
    cases c with
    | true => simp
    | false =>
      simp only []
      rw [h2]
      cases (IsMerged w b br).val with
      | error e => simp
      | ok m =>
        cases m with
        | true => simp
        | false =>
          simp only []
          rw [h3]
          cases (GetAheadCount w b br).val with
          | error e => simp
          | ok n =>
            simp only []
            split <;> simp

theorem rmCancelled_force (w : World) (baseBranch : String) (sess : Session) :
    (rmCancelled w true baseBranch sess).val = false ∧
    (rmCancelled w true baseBranch sess).events = [] := by
  unfold rmCancelled
  simp [pure]

theorem rmCancelled_noForce (w : World) (baseBranch : String) (sess : Session) :
    (rmCancelled w false baseBranch sess).val =
      (needsConfirmation (GetStatus w sess.AbsPath baseBranch sess.Branch).val &&
        !(Confirm w "Continue?").val) ∧
    (rmCancelled w false baseBranch sess).events =
      (GetStatus w sess.AbsPath baseBranch sess.Branch).events ++
        (if needsConfirmation (GetStatus w sess.AbsPath baseBranch sess.Branch).val then
          [Event.confirm "Continue?"] else []) := by
  unfold rmCancelled needsConfirmation
  simp only [bind, pure, Bool.not_false, if_true]
  cases (GetStatus w sess.AbsPath baseBranch sess.Branch).val with
  | error e => simp
  | ok info =>
    obtain ⟨status, count, description⟩ := info
    cases status <;> simp [Confirm]

theorem removeWorktree_events (w : World) (path : String) (force : Bool) :
    (RemoveWorktree w path force).events =
      [Event.git (if force then ["worktree", "remove", path, "--force"]
        else ["worktree", "remove", path])] := by
  unfold RemoveWorktree gitCombined
  simp only [bind, pure]
  generalize (if force = true then ["worktree", "remove", path, "--force"]
    else ["worktree", "remove", path]) = args
  cases (w.gitCombinedOutput args).2 <;> rfl

theorem deleteBranch_events (w : World) (branch : String) (force : Bool) :
    (DeleteBranch w branch force).events =
      [Event.git ["branch", if force then "-D" else "-d", branch]] := by
  unfold DeleteBranch gitCombined
  simp only [bind, pure]
  generalize (if force = true then "-D" else "-d") = flag
  cases (w.gitCombinedOutput ["branch", flag, branch]).2 <;> rfl

theorem removeFromSessions_spec (w : World) (c : Codec) (d : Disk) (store : Store)
    (sess : Session) :
    (removeFromSessions w c d store sess).val.store = store.Remove sess.ID ∧
    (removeFromSessions w c d store sess).val.disk =
      ((store.Remove sess.ID).Save w c d).val.2 ∧
    (removeFromSessions w c d store sess).val.err =
      ((store.Remove sess.ID).Save w c d).val.1.map
        (fun err => "failed to update sessions: " ++ err) ∧
    (removeFromSessions w c d store sess).events =
      ((store.Remove sess.ID).Save w c d).events := by
  unfold removeFromSessions
  simp only [bind, pure]
  cases ((store.Remove sess.ID).Save w c d).val.1 <;> simp

theorem runRm_worktree_exists (w : World) (c : Codec) (d : Disk) (rmForce : Bool)
    (baseBranch : String) (store : Store) (partialID : String) (sess : Session)
    (hfind : store.FindByPartialID partialID = .ok sess)
    (hex : (WorktreeExists w sess.AbsPath).val = true) :
    (runRm w c d rmForce baseBranch store partialID).val =
      (if (rmCancelled w rmForce baseBranch sess).val then ⟨none, store, d⟩
        else (removeFromSessions w c d store sess).val) ∧
    (runRm w c d rmForce baseBranch store partialID).events =
      (WorktreeExists w sess.AbsPath).events ++ (rmCancelled w rmForce baseBranch sess).events ++
        (if (rmCancelled w rmForce baseBranch sess).val then []
          else (RemoveWorktree w sess.AbsPath rmForce).events ++
            (DeleteBranch w sess.Branch rmForce).events ++
            (removeFromSessions w c d store sess).events) := by
  unfold runRm
  rw [hfind]
  simp only [bind, pure, hex, if_true]
  cases (rmCancelled w rmForce baseBranch sess).val <;> simp

theorem runRm_worktree_missing (w : World) (c : Codec) (d : Disk) (rmForce : Bool)
    (baseBranch : String) (store : Store) (partialID : String) (sess : Session)
    (hfind : store.FindByPartialID partialID = .ok sess)
    (hex : (WorktreeExists w sess.AbsPath).val = false) :
    (runRm w c d rmForce baseBranch store partialID).val =
      (removeFromSessions w c d store sess).val ∧
    (runRm w c d rmForce baseBranch store partialID).events =
      (WorktreeExists w sess.AbsPath).events ++ (BranchExists w sess.Branch).events ++
        (if (BranchExists w sess.Branch).val then (DeleteBranch w sess.Branch true).events
          else []) ++
        (removeFromSessions w c d store sess).events := by
  unfold runRm
  rw [hfind]
  simp only [bind, pure, hex]
  cases (BranchExists w sess.Branch).val <;> simp

theorem save_events_disk (s : Store) (w : World) (c : Codec) (d : Disk) :
    ∀ e ∈ (s.Save w c d).events,
      (∃ path, e = Event.mkdirAll path) ∨ (∃ path data, e = Event.writeFile path data) := by
  unfold Store.Save mkdirAll writeFile
  simp only [bind, pure]
  cases d.MkdirAll (s.worktreeDirPath w) with
  | some err => simp
  | none =>
    simp only []
    cases c.MarshalIndent s.sessions with
    | error err => simp
    | ok data =>
      simp only []
      cases d.WriteFile (s.sessionsPath w) <;> simp

theorem save_succeeds (s : Store) (w : World) (c : Codec) (d : Disk) (data : String)
    (hdir : d.MkdirAll (s.worktreeDirPath w) = none)
    (hmarshal : c.MarshalIndent s.sessions = .ok data)
    (hwrite : d.WriteFile (s.sessionsPath w) = none) :
    (s.Save w c d).val = (none, d.write (s.sessionsPath w) data) ∧
    (s.Save w c d).events =
      [Event.mkdirAll (s.worktreeDirPath w), Event.writeFile (s.sessionsPath w) data] := by
  unfold Store.Save mkdirAll writeFile
  simp only [bind, pure, hdir, hmarshal, hwrite]
  simp

theorem needsConfirmation_iff (status : Except String StatusInfo) :
    needsConfirmation status = true ↔
      ∃ info, status = .ok info ∧
        (info.Status = .StatusUncommitted ∨ info.Status = .StatusAhead) := by
  unfold needsConfirmation
  cases status with
  | error e => simp
  | ok info => simp

/-- C12, as the code has it: in `rm` without `--force` on a worktree that exists, the
user is asked for confirmation exactly when the status computation succeeds with
Uncommitted or Ahead, and the question comes after the status queries and before any
removal; when the status computation fails no question is asked and the run goes on as
for Clean and Merged: worktree removal, branch deletion, removal of the session from
the registry and saving. -/
theorem rm_asks_iff_uncommitted_or_ahead (w : World) (c : Codec) (d : Disk)
    (baseBranch : String) (store : Store) (partialID : String) (sess : Session)
    (hfind : store.FindByPartialID partialID = .ok sess)
    (hex : (WorktreeExists w sess.AbsPath).val = true) :
    ((∃ message, Event.confirm message ∈
          (runRm w c d false baseBranch store partialID).events) ↔
      ∃ info, (GetStatus w sess.AbsPath baseBranch sess.Branch).val = .ok info ∧
        (info.Status = .StatusUncommitted ∨ info.Status = .StatusAhead)) ∧
    ((∃ info, (GetStatus w sess.AbsPath baseBranch sess.Branch).val = .ok info ∧
        (info.Status = .StatusUncommitted ∨ info.Status = .StatusAhead)) →
      ∃ rest, (runRm w c d false baseBranch store partialID).events =
        (WorktreeExists w sess.AbsPath).events ++
          (GetStatus w sess.AbsPath baseBranch sess.Branch).events ++
          Event.confirm "Continue?" :: rest) ∧
    (∀ err, (GetStatus w sess.AbsPath baseBranch sess.Branch).val = .error err →
      (runRm w c d false baseBranch store partialID).val.store = store.Remove sess.ID ∧
      (runRm w c d false baseBranch store partialID).events =
        (WorktreeExists w sess.AbsPath).events ++
          (GetStatus w sess.AbsPath baseBranch sess.Branch).events ++
          [Event.git ["worktree", "remove", sess.AbsPath],
            Event.git ["branch", "-d", sess.Branch]] ++
          ((store.Remove sess.ID).Save w c d).events) := by
  obtain ⟨hval, hev⟩ := runRm_worktree_exists w c d false baseBranch store partialID sess hfind hex
  obtain ⟨hcv, hce⟩ := rmCancelled_noForce w baseBranch sess
  obtain ⟨hrs, _, _, hre⟩ := removeFromSessions_spec w c d store sess
  have hW := worktreeExists_events w sess.AbsPath
  have hG := getStatus_events_git w sess.AbsPath baseBranch sess.Branch
  have hS := save_events_disk (store.Remove sess.ID) w c d
  rw [← needsConfirmation_iff]
  refine ⟨?_, ?_, ?_⟩
  · rw [hev, hce, removeWorktree_events, deleteBranch_events, hre]
    constructor
    · rintro ⟨message, hm⟩
      by_contra hn
      simp only [hn, Bool.false_eq_true, if_false, List.append_nil, List.mem_append] at hm
      rcases hm with (hm | hm) | hm
      · have := hW _ hm
        cases this
      · obtain ⟨args, ha⟩ := hG _ hm
        cases ha
      · split at hm
        · cases hm
        · simp only [List.mem_append, List.mem_singleton] at hm
          rcases hm with (hm | hm) | hm
          · cases hm
          · cases hm
          · rcases hS _ hm with ⟨p, hp⟩ | ⟨p, dat, hp⟩ <;> cases hp
    · intro hn
      refine ⟨"Continue?", ?_⟩
      simp [hn]
  · intro hn
    rw [hev, hce, hn]
    simp only [if_true]
    exact ⟨if (rmCancelled w false baseBranch sess).val = true then []
      else (RemoveWorktree w sess.AbsPath false).events ++
        (DeleteBranch w sess.Branch false).events ++
        (removeFromSessions w c d store sess).events,
      by simp only [List.append_assoc, List.singleton_append]⟩
  · intro err herr
    have hn : needsConfirmation (GetStatus w sess.AbsPath baseBranch sess.Branch).val = false := by
      rw [herr]; rfl
    have hc : (rmCancelled w false baseBranch sess).val = false := by
      rw [hcv, hn]; rfl
    constructor
    · rw [hval, hc]
      exact hrs
    · rw [hev, hce, hc, hn, removeWorktree_events, deleteBranch_events, hre]
      simp

/-- C12 with the worktree of `sessA` having a modified file and the user answering `n`:
the question is asked, and the run ends there with the session still registered. -/
theorem rm_asks_iff_uncommitted_or_ahead_witness :
    (∃ message, Event.confirm message ∈
      (runRm (commandWorld (.ok " M main.go\n") ("", none) ("", none) ("", none) (.ok "n\n"))
        demoCodec (demoDisk (.data recordAC)) false "main" pairStore "a3f8").events) ∧
    (runRm (commandWorld (.ok " M main.go\n") ("", none) ("", none) ("", none) (.ok "n\n"))
        demoCodec (demoDisk (.data recordAC)) false "main" pairStore "a3f8").val.store.Get
      "a3f8c2d1" = some sessA :=
  ⟨(rm_asks_iff_uncommitted_or_ahead
      (commandWorld (.ok " M main.go\n") ("", none) ("", none) ("", none) (.ok "n\n"))
      demoCodec (demoDisk (.data recordAC)) "main" pairStore "a3f8" sessA
      (by decide) (by decide)).1.2
      ⟨{ Status := .StatusUncommitted, AheadCount := 0, Description := "uncommitted" },
        by decide, Or.inl rfl⟩,
   by decide⟩

/-- C12 fails as stated: with `git status` failing in the existing worktree of `sessA`,
`rm a3f8` without `--force` asks nothing, runs the removal of the worktree and the
deletion of the branch, and removes the session from the registry and from the saved
record. -/
theorem rm_unknown_status_removed_unasked :
    (WorktreeExists unknownStatusWorld sessA.AbsPath).val = true ∧
    (GetStatus unknownStatusWorld sessA.AbsPath "main" sessA.Branch).val =
      .error "exit status 128" ∧
    (runRm unknownStatusWorld demoCodec (demoDisk (.data recordAC)) false "main" pairStore
        "a3f8").events =
      [Event.git ["worktree", "list", "--porcelain"],
       Event.git ["-C", "/home/dev/worktree/a3f8c2d1", "status", "--porcelain"],
       Event.git ["worktree", "remove", "/home/dev/worktree/a3f8c2d1"],
       Event.git ["branch", "-d", "wt/a3f8c2d1"],
       Event.mkdirAll "/home/dev/repo/.wtree",
       Event.writeFile "/home/dev/repo/.wtree/sessions.json" recordC] ∧
    (runRm unknownStatusWorld demoCodec (demoDisk (.data recordAC)) false "main" pairStore
        "a3f8").val.err = none ∧
    (runRm unknownStatusWorld demoCodec (demoDisk (.data recordAC)) false "main" pairStore
        "a3f8").val.store.Get "a3f8c2d1" = none ∧
    (runRm unknownStatusWorld demoCodec (demoDisk (.data recordAC)) false "main" pairStore
        "a3f8").val.disk.ReadFile "/home/dev/repo/.wtree/sessions.json" = .data recordC := by
  refine ⟨by decide, by decide, by decide, by decide, by decide, by decide⟩

/-- C19: in `rm`, once the session is resolved and the run has not ended on a
declined confirmation, the session is removed from the registry and the registry is
saved, in every world: whatever the removal of the worktree and the deletion of the
branch return.  On a worktree that exists the run ends with the removal of the
worktree, then the deletion of the branch, then the saving; on a worktree that is gone
it ends with the forced deletion of the branch, if the branch exists, then the saving.
When the disk takes the write, `rm` returns no error and the sessions file holds the
registry without the session. -/
theorem rm_cleanup_best_effort (w : World) (c : Codec) (d : Disk) (rmForce : Bool)
    (baseBranch : String) (store : Store) (partialID : String) (sess : Session)
    (hfind : store.FindByPartialID partialID = .ok sess)
    (hgo : (WorktreeExists w sess.AbsPath).val = true →
      (rmCancelled w rmForce baseBranch sess).val = false) :
    (runRm w c d rmForce baseBranch store partialID).val.store = store.Remove sess.ID ∧
    (runRm w c d rmForce baseBranch store partialID).val.disk =
      ((store.Remove sess.ID).Save w c d).val.2 ∧
    (runRm w c d rmForce baseBranch store partialID).val.err =
      ((store.Remove sess.ID).Save w c d).val.1.map
        (fun err => "failed to update sessions: " ++ err) ∧
    ((WorktreeExists w sess.AbsPath).val = true →
      ∃ before, (runRm w c d rmForce baseBranch store partialID).events =
        before ++
          [Event.git (if rmForce then ["worktree", "remove", sess.AbsPath, "--force"]
              else ["worktree", "remove", sess.AbsPath]),
            Event.git ["branch", if rmForce then "-D" else "-d", sess.Branch]] ++
          ((store.Remove sess.ID).Save w c d).events) ∧
    ((WorktreeExists w sess.AbsPath).val = false →
      ∃ before, (runRm w c d rmForce baseBranch store partialID).events =
        before ++
          (if (BranchExists w sess.Branch).val then [Event.git ["branch", "-D", sess.Branch]]
            else []) ++
          ((store.Remove sess.ID).Save w c d).events) ∧
    (∀ data, d.MkdirAll (store.worktreeDirPath w) = none →
      c.MarshalIndent (store.Remove sess.ID).sessions = .ok data →
      d.WriteFile (store.sessionsPath w) = none →
      (runRm w c d rmForce baseBranch store partialID).val.err = none ∧
      (runRm w c d rmForce baseBranch store partialID).val.disk.ReadFile
        (store.sessionsPath w) = .data data ∧
      Event.writeFile (store.sessionsPath w) data ∈
        (runRm w c d rmForce baseBranch store partialID).events) := by
  obtain ⟨hrs, hrd, hre, hrev⟩ := removeFromSessions_spec w c d store sess
  have hval : (runRm w c d rmForce baseBranch store partialID).val =
      (removeFromSessions w c d store sess).val := by
    cases hex : (WorktreeExists w sess.AbsPath).val with
    | true =>
      rw [(runRm_worktree_exists w c d rmForce baseBranch store partialID sess hfind hex).1,
        hgo hex]
      rfl
    | false =>
      exact (runRm_worktree_missing w c d rmForce baseBranch store partialID sess hfind hex).1
  have hexists : (WorktreeExists w sess.AbsPath).val = true →
      ∃ before, (runRm w c d rmForce baseBranch store partialID).events =
        before ++
          [Event.git (if rmForce then ["worktree", "remove", sess.AbsPath, "--force"]
              else ["worktree", "remove", sess.AbsPath]),
            Event.git ["branch", if rmForce then "-D" else "-d", sess.Branch]] ++
          ((store.Remove sess.ID).Save w c d).events := by
    intro hex
    refine ⟨(WorktreeExists w sess.AbsPath).events ++
      (rmCancelled w rmForce baseBranch sess).events, ?_⟩
    rw [(runRm_worktree_exists w c d rmForce baseBranch store partialID sess hfind hex).2,
      hgo hex, removeWorktree_events, deleteBranch_events, hrev]
    simp
  have hmissing : (WorktreeExists w sess.AbsPath).val = false →
      ∃ before, (runRm w c d rmForce baseBranch store partialID).events =
        before ++
          (if (BranchExists w sess.Branch).val then [Event.git ["branch", "-D", sess.Branch]]
            else []) ++
          ((store.Remove sess.ID).Save w c d).events := by
    intro hex
    refine ⟨(WorktreeExists w sess.AbsPath).events ++ (BranchExists w sess.Branch).events, ?_⟩
    rw [(runRm_worktree_missing w c d rmForce baseBranch store partialID sess hfind hex).2,
      deleteBranch_events, hrev]
    simp
  refine ⟨by rw [hval, hrs], by rw [hval, hrd], by rw [hval, hre], hexists, hmissing, ?_⟩
  intro data hdir hmarshal hwrite
  obtain ⟨hsv, hse⟩ := save_succeeds (store.Remove sess.ID) w c d data hdir hmarshal hwrite
  refine ⟨by rw [hval, hre, hsv]; rfl, ?_, ?_⟩
  · rw [hval, hrd, hsv]
    show (d.write (store.sessionsPath w) data).ReadFile (store.sessionsPath w) = .data data
    simp [Disk.write]
  · have hmem : Event.writeFile (store.sessionsPath w) data ∈
        ((store.Remove sess.ID).Save w c d).events := by
      rw [hse]
      exact List.mem_cons_of_mem _ (List.mem_singleton.2 rfl)
    cases hex : (WorktreeExists w sess.AbsPath).val with
    | true =>
      obtain ⟨before, hb⟩ := hexists hex
      rw [hb]
      exact List.mem_append_right _ hmem
    | false =>
      obtain ⟨before, hb⟩ := hmissing hex
      rw [hb]
      exact List.mem_append_right _ hmem

/-- C19 with the worktree of `sessA` changed, the user answering `Y`, and both the
removal of the worktree and the deletion of the branch failing: the deletion is still
run after the failed removal, the session is removed from the registry, and the record
without it is written. -/
theorem rm_cleanup_best_effort_witness :
    (RemoveWorktree failingCleanupWorld sessA.AbsPath false).val =
      some "failed to remove worktree: fatal: cannot remove: Permission denied" ∧
    (DeleteBranch failingCleanupWorld sessA.Branch false).val =
      some "failed to delete branch: error: branch not fully merged" ∧
    (runRm failingCleanupWorld demoCodec (demoDisk (.data recordAC)) false "main" pairStore
        "a3f8").events =
      [Event.git ["worktree", "list", "--porcelain"],
       Event.git ["-C", "/home/dev/worktree/a3f8c2d1", "status", "--porcelain"],
       Event.confirm "Continue?",
       Event.git ["worktree", "remove", "/home/dev/worktree/a3f8c2d1"],
       Event.git ["branch", "-d", "wt/a3f8c2d1"],
       Event.mkdirAll "/home/dev/repo/.wtree",
       Event.writeFile "/home/dev/repo/.wtree/sessions.json" recordC] ∧
    (runRm failingCleanupWorld demoCodec (demoDisk (.data recordAC)) false "main" pairStore
        "a3f8").val.store = pairStore.Remove "a3f8c2d1" ∧
    (runRm failingCleanupWorld demoCodec (demoDisk (.data recordAC)) false "main" pairStore
        "a3f8").val.err = none ∧
    (runRm failingCleanupWorld demoCodec (demoDisk (.data recordAC)) false "main" pairStore
        "a3f8").val.disk.ReadFile "/home/dev/repo/.wtree/sessions.json" = .data recordC :=
  ⟨by decide, by decide, by decide,
   (rm_cleanup_best_effort failingCleanupWorld demoCodec (demoDisk (.data recordAC)) false
      "main" pairStore "a3f8" sessA (by decide) (fun _ => by decide)).1,
   ((rm_cleanup_best_effort failingCleanupWorld demoCodec (demoDisk (.data recordAC)) false
      "main" pairStore "a3f8" sessA (by decide) (fun _ => by decide)).2.2.2.2.2 recordC
      (by decide) (by decide) (by decide)).1,
   ((rm_cleanup_best_effort failingCleanupWorld demoCodec (demoDisk (.data recordAC)) false
      "main" pairStore "a3f8" sessA (by decide) (fun _ => by decide)).2.2.2.2.2 recordC
      (by decide) (by decide) (by decide)).2.1⟩

theorem merge_spec (w : World) (branch : String) :
    (Merge w branch).events = [Event.git ["merge", branch]] ∧
    (Merge w branch).val =
      match (w.gitCombinedOutput ["merge", branch]).2 with
      | none => none
      | some _ =>
        if Contains (TrimSpace (w.gitCombinedOutput ["merge", branch]).1) "CONFLICT" ||
            Contains (TrimSpace (w.gitCombinedOutput ["merge", branch]).1)
              "Automatic merge failed" then
          some "merge conflict detected"
        else some ("failed to merge: " ++ TrimSpace (w.gitCombinedOutput ["merge", branch]).1) := by
  unfold Merge gitCombined
  simp only [bind, pure]
  cases (w.gitCombinedOutput ["merge", branch]).2 with
  | none => exact ⟨rfl, rfl⟩
  | some e =>
    simp only []
    split <;> exact ⟨rfl, rfl⟩

theorem getCurrentBranch_events (w : World) :
    (GetCurrentBranch w).events = [Event.git ["rev-parse", "--abbrev-ref", "HEAD"]] := by
  unfold GetCurrentBranch git
  simp only [bind, pure]
  cases w.gitOutput ["rev-parse", "--abbrev-ref", "HEAD"] <;> rfl

theorem failedToMerge_ne_conflict (output : String) :
    "failed to merge: " ++ output ≠ "merge conflict detected" := by
  intro h
  have := congrArg String.data h
  simp [String.data_append] at this

/-- C20: in `merge`, when the run of `git merge` on the branch of the session fails, the
registry in memory and the disk are left as they were and the command runs nothing but
the queries for the current branch, the uncommitted changes and the ahead count and the
merge itself: no removal of the worktree, no deletion of the branch, no saving.  When
the merge was run and its output names a conflict the command returns no error; when
the output names none it returns the error of the merge. -/
theorem merge_failure_keeps_worktree (w : World) (c : Codec) (d : Disk)
    (baseBranch : String) (store : Store) (partialID : String) (sess : Session)
    (runErr : String)
    (hfind : store.FindByPartialID partialID = .ok sess)
    (hfail : (w.gitCombinedOutput ["merge", sess.Branch]).2 = some runErr) :
    (runMerge w c d baseBranch store partialID).val.store = store ∧
    (runMerge w c d baseBranch store partialID).val.disk = d ∧
    (∀ e ∈ (runMerge w c d baseBranch store partialID).events,
      e = Event.git ["rev-parse", "--abbrev-ref", "HEAD"] ∨
      e = Event.git ["-C", sess.AbsPath, "status", "--porcelain"] ∨
      e = Event.git ["rev-list", "--count", baseBranch ++ ".." ++ sess.Branch] ∨
      e = Event.git ["merge", sess.Branch]) ∧
    (Event.git ["merge", sess.Branch] ∈ (runMerge w c d baseBranch store partialID).events →
      ((Contains (TrimSpace (w.gitCombinedOutput ["merge", sess.Branch]).1) "CONFLICT" = true ∨
          Contains (TrimSpace (w.gitCombinedOutput ["merge", sess.Branch]).1)
            "Automatic merge failed" = true) →
        (runMerge w c d baseBranch store partialID).val.err = none) ∧
      (Contains (TrimSpace (w.gitCombinedOutput ["merge", sess.Branch]).1) "CONFLICT" = false →
        Contains (TrimSpace (w.gitCombinedOutput ["merge", sess.Branch]).1)
          "Automatic merge failed" = false →
        (runMerge w c d baseBranch store partialID).val.err =
          some ("failed to merge: " ++
            TrimSpace (w.gitCombinedOutput ["merge", sess.Branch]).1))) := by
  obtain ⟨hme, hmv⟩ := merge_spec w sess.Branch
  rw [hfail] at hmv
  simp only [] at hmv
  have hcb := getCurrentBranch_events w
  have hue := hasUncommittedChanges_events w sess.AbsPath
  have hae := getAheadCount_events w baseBranch sess.Branch
  unfold runMerge
  rw [hfind]
  simp only [bind, pure]
  rw [hcb, hue, hae, hme]
  split
  · -- run from within the worktree
    refine ⟨rfl, rfl, ?_, ?_⟩
    · intro e he
      simp only [List.append_nil, List.mem_singleton] at he
      exact Or.inl he
    · intro hmem
      simp only [List.append_nil, List.mem_singleton] at hmem
      have := Event.git.inj hmem
      simp at this
  · cases hu : (HasUncommittedChanges w sess.AbsPath).val with
    | error err =>
      refine ⟨rfl, rfl, ?_, ?_⟩
      · intro e he
        simp only [List.append_nil, List.mem_append, List.mem_singleton] at he
        rcases he with he | he
        · exact Or.inl he
        · exact Or.inr (Or.inl he)
      · intro hmem
        simp only [List.append_nil, List.mem_append, List.mem_singleton] at hmem
        rcases hmem with hmem | hmem <;>
        · have := Event.git.inj hmem
          simp at this
    | ok changed =>
      cases changed with
      | true =>
        refine ⟨rfl, rfl, ?_, ?_⟩
        · intro e he
          simp only [List.append_nil, List.mem_append, List.mem_singleton] at he
          rcases he with he | he
          · exact Or.inl he
          · exact Or.inr (Or.inl he)
        · intro hmem
          simp only [List.append_nil, List.mem_append, List.mem_singleton] at hmem
          rcases hmem with hmem | hmem <;>
          · have := Event.git.inj hmem
            simp at this
      | false =>
        simp only []
        rw [hmv]
        by_cases hc : (Contains (TrimSpace (w.gitCombinedOutput ["merge", sess.Branch]).1)
            "CONFLICT" ||
          Contains (TrimSpace (w.gitCombinedOutput ["merge", sess.Branch]).1)
            "Automatic merge failed") = true
        · simp only [hc, if_true]
          refine ⟨by first | rfl | trivial, by first | rfl | trivial, ?_, ?_⟩
          · intro e he
            simp only [List.append_nil, List.mem_append, List.mem_singleton] at he
            rcases he with he | he | he | he
            · exact Or.inl he
            · exact Or.inr (Or.inl he)
            · exact Or.inr (Or.inr (Or.inl he))
            · exact Or.inr (Or.inr (Or.inr he))
          · intro _
            refine ⟨fun _ => by first | rfl | trivial, ?_⟩
            intro h1 h2
            rw [h1, h2] at hc
            simp at hc
        · simp only [hc, if_false, Bool.false_eq_true]
          rw [if_neg (failedToMerge_ne_conflict _)]
          refine ⟨rfl, rfl, ?_, ?_⟩
          · intro e he
            simp only [List.append_nil, List.mem_append, List.mem_singleton] at he
            rcases he with he | he | he | he
            · exact Or.inl he
            · exact Or.inr (Or.inl he)
            · exact Or.inr (Or.inr (Or.inl he))
            · exact Or.inr (Or.inr (Or.inr he))
          · intro _
            refine ⟨?_, fun _ _ => rfl⟩
            intro h
            exfalso
            apply hc
            rcases h with h | h <;> simp [h]

/-- C20 with the merge of the branch of `sessA` failing on a conflict: the merge is run,
nothing is removed, deleted or saved, the session stays registered, and the command
returns no error; with a merge failing for another reason the command returns that
failure and leaves everything in place as well. -/
theorem merge_failure_keeps_worktree_witness :
    (runMerge (failingMergeWorld "CONFLICT (content): Merge conflict in main.go\n")
        demoCodec (demoDisk (.data recordAC)) "main" pairStore "a3f8").events =
      [Event.git ["rev-parse", "--abbrev-ref", "HEAD"],
       Event.git ["-C", "/home/dev/worktree/a3f8c2d1", "status", "--porcelain"],
       Event.git ["rev-list", "--count", "main..wt/a3f8c2d1"],
       Event.git ["merge", "wt/a3f8c2d1"]] ∧
    (runMerge (failingMergeWorld "CONFLICT (content): Merge conflict in main.go\n")
        demoCodec (demoDisk (.data recordAC)) "main" pairStore "a3f8").val.store = pairStore ∧
    (runMerge (failingMergeWorld "CONFLICT (content): Merge conflict in main.go\n")
        demoCodec (demoDisk (.data recordAC)) "main" pairStore "a3f8").val.err = none ∧
    (runMerge (failingMergeWorld "fatal: refusing to merge unrelated histories\n")
        demoCodec (demoDisk (.data recordAC)) "main" pairStore "a3f8").val.store = pairStore ∧
    (runMerge (failingMergeWorld "fatal: refusing to merge unrelated histories\n")
        demoCodec (demoDisk (.data recordAC)) "main" pairStore "a3f8").val.err =
      some "failed to merge: fatal: refusing to merge unrelated histories" :=
  ⟨by decide,
   (merge_failure_keeps_worktree
      (failingMergeWorld "CONFLICT (content): Merge conflict in main.go\n")
      demoCodec (demoDisk (.data recordAC)) "main" pairStore "a3f8" sessA "exit status 1"
      (by decide) (by decide)).1,
   ((merge_failure_keeps_worktree
      (failingMergeWorld "CONFLICT (content): Merge conflict in main.go\n")
      demoCodec (demoDisk (.data recordAC)) "main" pairStore "a3f8" sessA "exit status 1"
      (by decide) (by decide)).2.2.2 (by decide)).1 (Or.inl (by decide)),
   (merge_failure_keeps_worktree
      (failingMergeWorld "fatal: refusing to merge unrelated histories\n")
      demoCodec (demoDisk (.data recordAC)) "main" pairStore "a3f8" sessA "exit status 1"
      (by decide) (by decide)).1,
   by decide⟩

/-! ## Identifiers -/

theorem hextable_digit (n : Nat) (h : n < 16) :
    ((('0' ≤ hextable.getD n '0' ∧ hextable.getD n '0' ≤ '9') ∨
      ('a' ≤ hextable.getD n '0' ∧ hextable.getD n '0' ≤ 'f')) ∧
    hexDigitValue (hextable.getD n '0') = some n) := by
  revert n
  decide

theorem encodeToString_four (a b c d : Byte) :
    (EncodeToString [a, b, c, d]).data =
      [hextable.getD (a.val / 16) '0', hextable.getD (a.val % 16) '0',
       hextable.getD (b.val / 16) '0', hextable.getD (b.val % 16) '0',
       hextable.getD (c.val / 16) '0', hextable.getD (c.val % 16) '0',
       hextable.getD (d.val / 16) '0', hextable.getD (d.val % 16) '0'] := by
  simp [EncodeToString]

theorem generate_ok (r : RandSource) (h : r.err = none) :
    Generate r = .ok (EncodeToString [r.byte 0, r.byte 1, r.byte 2, r.byte 3]) := by
  unfold Generate RandSource.Read
  rw [h]
  rfl

/-- C17: when the random source delivers bytes, `Generate` returns the hex encoding of
the four bytes it delivered: a string of exactly 8 characters, each in `0`-`9` or
`a`-`f`, which read two digits to a byte, high digit first, give back those bytes; when
the random source fails, `Generate` returns its error and no identifier. -/
theorem generate_eight_hex (r : RandSource) :
    (r.err = none →
      ∃ id, Generate r = .ok id ∧
        id = EncodeToString [r.byte 0, r.byte 1, r.byte 2, r.byte 3] ∧
        id.data.length = 8 ∧
        (∀ ch ∈ id.data, ('0' ≤ ch ∧ ch ≤ '9') ∨ ('a' ≤ ch ∧ ch ≤ 'f')) ∧
        hexBytes id.data =
          some [(r.byte 0).val, (r.byte 1).val, (r.byte 2).val, (r.byte 3).val]) ∧
    (∀ err, r.err = some err → Generate r = .error err) := by
  constructor
  · intro h
    refine ⟨_, generate_ok r h, rfl, ?_, ?_, ?_⟩
    · rw [encodeToString_four]
      rfl
    · intro ch hch
      rw [encodeToString_four] at hch
      have hd : ∀ v : Byte, v.val / 16 < 16 := fun v => by
        have := v.isLt
        omega
      have hm : ∀ v : Byte, v.val % 16 < 16 := fun v => Nat.mod_lt _ (by decide)
      simp only [List.mem_cons, List.mem_singleton, List.not_mem_nil, or_false] at hch
      rcases hch with h | h | h | h | h | h | h | h <;> rw [h]
      · exact (hextable_digit _ (hd _)).1
      · exact (hextable_digit _ (hm _)).1
      · exact (hextable_digit _ (hd _)).1
      · exact (hextable_digit _ (hm _)).1
      · exact (hextable_digit _ (hd _)).1
      · exact (hextable_digit _ (hm _)).1
      · exact (hextable_digit _ (hd _)).1
      · exact (hextable_digit _ (hm _)).1
    · rw [encodeToString_four]
      have hd : ∀ v : Byte, v.val / 16 < 16 := fun v => by
        have := v.isLt
        omega
      have hm : ∀ v : Byte, v.val % 16 < 16 := fun v => Nat.mod_lt _ (by decide)
      have hv : ∀ v : Byte, v.val / 16 * 16 + v.val % 16 = v.val := fun v => by omega
      simp only [hexBytes, (hextable_digit _ (hd _)).2, (hextable_digit _ (hm _)).2, hv]
  · intro err h
    unfold Generate RandSource.Read
    rw [h]

/-- C17 for the random bytes `0a 57 a4 f1`: the identifier is `0a57a4f1`; and with a
failing source `Generate` fails. -/
theorem generate_eight_hex_witness :
    Generate ⟨none, fun i => [0x0a, 0x57, 0xa4, 0xf1].getD i 0⟩ = .ok "0a57a4f1" ∧
    Generate ⟨some "unexpected EOF", fun _ => 0⟩ = .error "unexpected EOF" := by
  obtain ⟨id, hid, henc, _⟩ :=
    (generate_eight_hex ⟨none, fun i => [0x0a, 0x57, 0xa4, 0xf1].getD i 0⟩).1 rfl
  refine ⟨?_, (generate_eight_hex ⟨some "unexpected EOF", fun _ => 0⟩).2 _ rfl⟩
  rw [hid, henc]
  decide

/-! ## The existence check -/

theorem worktreeExists_val (w : World) (path : String) :
    (WorktreeExists w path).val =
      match w.Abs path with
      | .error _ => false
      | .ok absPath =>
        match w.gitOutput ["worktree", "list", "--porcelain"] with
        | .error _ => false
        | .ok out =>
          (Split out '\n').any (fun line =>
            HasPrefix line "worktree " &&
              w.EqualFold (ToSlash w absPath) (ToSlash w (TrimPrefix line "worktree "))) := by
  unfold WorktreeExists git
  cases w.Abs path with
  | error err => rfl
  | ok absPath =>
    simp only [bind, pure]
    cases w.gitOutput ["worktree", "list", "--porcelain"] <;> rfl

theorem trimPrefix_worktree (line : String) (h : HasPrefix line "worktree " = true) :
    TrimPrefix line "worktree " = ⟨line.data.drop 9⟩ := by
  unfold TrimPrefix
  rw [if_pos h]
  rfl

theorem any_worktree_line_iff (w : World) (absPath out : String) :
    (Split out '\n').any (fun line =>
        HasPrefix line "worktree " &&
          w.EqualFold (ToSlash w absPath) (ToSlash w (TrimPrefix line "worktree "))) = true ↔
      ∃ entry ∈ worktreeListEntries out,
        w.EqualFold (ToSlash w absPath) (ToSlash w entry) = true := by
  unfold worktreeListEntries
  simp only [List.any_eq_true, Bool.and_eq_true, List.mem_map, List.mem_filter]
  constructor
  · rintro ⟨line, hmem, hpre, heq⟩
    refine ⟨⟨line.data.drop 9⟩, ⟨line, ⟨hmem, hpre⟩, rfl⟩, ?_⟩
    rw [← trimPrefix_worktree line hpre]
    exact heq
  · rintro ⟨entry, ⟨line, ⟨hmem, hpre⟩, rfl⟩, heq⟩
    refine ⟨line, hmem, hpre, ?_⟩
    rw [trimPrefix_worktree line hpre]
    exact heq

theorem splitChars_append_sep (sep : Char) (l rest : List Char) (h : sep ∉ l) :
    splitChars sep (l ++ sep :: rest) = l :: splitChars sep rest := by
  induction l with
  | nil => simp [splitChars]
  | cons c l ih =>
    have hc : c ≠ sep := fun hcs => h (by rw [hcs]; exact List.mem_cons_self _ _)
    have hl : sep ∉ l := fun hm => h (List.mem_cons_of_mem _ hm)
    have hstep : splitChars sep (c :: (l ++ sep :: rest)) =
        match splitChars sep (l ++ sep :: rest) with
        | [] => [[c]]
        | piece :: pieces => (c :: piece) :: pieces := by
      simp only [splitChars, if_neg hc]
    rw [List.cons_append, hstep, ih hl]

theorem splitChars_lines (sep : Char) (ls : List (List Char)) (h : ∀ l ∈ ls, sep ∉ l) :
    splitChars sep ((ls.map (fun l => l ++ [sep])).flatten) = ls ++ [[]] := by
  induction ls with
  | nil => rfl
  | cons l ls ih =>
    have hl : sep ∉ l := h l (List.mem_cons_self _ _)
    have hls : ∀ l' ∈ ls, sep ∉ l' := fun l' hm => h l' (List.mem_cons_of_mem _ hm)
    simp only [List.map_cons, List.flatten_cons, List.append_assoc, List.singleton_append,
      List.cons_append]
    rw [splitChars_append_sep sep l _ hl, List.nil_append, ih hls]

theorem hasPrefix_worktree_append (path : String) :
    HasPrefix ("worktree " ++ path) "worktree " = true := by
  apply (hasPrefix_iff _ _).2
  unfold StartsWith
  rw [String.data_append]
  exact List.prefix_append _ _

theorem filter_entry_lines (e : WorktreeEntry) (h : e.WellFormed) :
    e.lines.filter (fun line => HasPrefix line "worktree ") = ["worktree " ++ e.path] := by
  unfold WorktreeEntry.lines
  rw [List.filter_cons_of_pos (by simpa using hasPrefix_worktree_append e.path)]
  congr 1
  apply List.filter_eq_nil_iff.2
  intro line hmem
  rcases List.mem_append.1 hmem with hm | hm
  · simpa using (h.2 line hm).2
  · rw [List.mem_singleton.1 hm]
    decide

theorem entry_lines_no_newline (e : WorktreeEntry) (h : e.WellFormed) :
    ∀ line ∈ e.lines, '\n' ∉ line.data := by
  intro line hmem
  unfold WorktreeEntry.lines at hmem
  rcases List.mem_cons.1 hmem with hm | hm
  · rw [hm, String.data_append]
    intro hin
    rcases List.mem_append.1 hin with hin | hin
    · revert hin
      decide
    · exact h.1 hin
  · rcases List.mem_append.1 hm with hm | hm
    · exact (h.2 line hm).1
    · rw [List.mem_singleton.1 hm]
      decide

theorem worktreeListEntries_render (entries : List WorktreeEntry)
    (h : ∀ e ∈ entries, e.WellFormed) :
    worktreeListEntries (renderWorktreeList entries) = entries.map (fun e => e.path) := by
  have hsplit : Split (renderWorktreeList entries) '\n' =
      (entries.map WorktreeEntry.lines).flatten ++ [""] := by
    unfold Split renderWorktreeList
    have hnl : ∀ l ∈ ((entries.map WorktreeEntry.lines).flatten).map String.data,
        '\n' ∉ l := by
      intro l hl
      obtain ⟨line, hline, rfl⟩ := List.mem_map.1 hl
      obtain ⟨ls, hls, hin⟩ := List.mem_flatten.1 hline
      obtain ⟨e, he, rfl⟩ := List.mem_map.1 hls
      exact entry_lines_no_newline e (h e he) line hin
    have := splitChars_lines '\n' _ hnl
    simp only [List.map_map] at this
    show List.map String.mk (splitChars '\n'
      ((List.map (fun line => line.data ++ ['\n'])
        (entries.map WorktreeEntry.lines).flatten).flatten)) = _
    have hfun : (fun line : String => line.data ++ ['\n']) =
        ((fun l => l ++ ['\n']) ∘ String.data) := rfl
    rw [hfun, this]
    simp [List.map_map, Function.comp_def]
  unfold worktreeListEntries
  rw [hsplit, List.filter_append]
  have hlast : List.filter (fun line => HasPrefix line "worktree ") [""] = [] := by decide
  rw [hlast, List.append_nil]
  clear hsplit hlast
  induction entries with
  | nil => rfl
  | cons e es ih =>
    have he := h e (List.mem_cons_self _ _)
    have hes : ∀ e' ∈ es, e'.WellFormed := fun e' hm => h e' (List.mem_cons_of_mem _ hm)
    simp only [List.map_cons, List.flatten_cons, List.filter_append, List.map_append]
    rw [filter_entry_lines e he, ih hes]
    simp [String.data_append]

/-- C18: with the path made absolute and the worktree listing read, `WorktreeExists` is
true exactly when some path of the listing, its separators turned into slashes, equals
under `EqualFold` the absolute path with its separators turned into slashes; it is
false when the path cannot be made absolute and when the listing fails.  On the output
git prints for a list of worktrees, the paths of the listing are the paths of those
worktrees. -/
theorem worktreeExists_iff_listed (w : World) (path : String) :
    (∀ absPath out, w.Abs path = .ok absPath →
      w.gitOutput ["worktree", "list", "--porcelain"] = .ok out →
      ((WorktreeExists w path).val = true ↔
        ∃ entry ∈ worktreeListEntries out,
          w.EqualFold (ToSlash w absPath) (ToSlash w entry) = true)) ∧
    (∀ err, w.Abs path = .error err → (WorktreeExists w path).val = false) ∧
    (∀ err, w.gitOutput ["worktree", "list", "--porcelain"] = .error err →
      (WorktreeExists w path).val = false) ∧
    (∀ entries : List WorktreeEntry, (∀ e ∈ entries, e.WellFormed) →
      worktreeListEntries (renderWorktreeList entries) = entries.map (fun e => e.path)) := by
  refine ⟨?_, ?_, ?_, worktreeListEntries_render⟩
  · intro absPath out habs hout
    rw [worktreeExists_val, habs]
    simp only []
    rw [hout]
    exact any_worktree_line_iff w absPath out
  · intro err habs
    rw [worktreeExists_val, habs]
  · intro err hout
    rw [worktreeExists_val]
    cases w.Abs path with
    | error e => rfl
    | ok absPath =>
      simp only []
      rw [hout]

/-- C18 on the listing of the main worktree and the worktree of `sessA`: the paths of
the listing are those two; the path of `sessA` written in capitals exists, the path of
`sessC` does not, and nothing exists when the listing fails. -/
theorem worktreeExists_iff_listed_witness :
    worktreeListEntries twoWorktrees =
      ["/home/dev/repo", "/home/dev/worktree/a3f8c2d1"] ∧
    (WorktreeExists (demoWorld (.ok "") (.ok "") (.ok "") (.ok twoWorktrees))
      "/home/dev/worktree/A3F8C2D1").val = true ∧
    (WorktreeExists (demoWorld (.ok "") (.ok "") (.ok "") (.ok twoWorktrees))
      sessC.AbsPath).val = false ∧
    (WorktreeExists (demoWorld (.ok "") (.ok "") (.ok "") (.error "exit status 128"))
      sessA.AbsPath).val = false :=
  ⟨by decide,
   ((worktreeExists_iff_listed (demoWorld (.ok "") (.ok "") (.ok "") (.ok twoWorktrees))
      "/home/dev/worktree/A3F8C2D1").1 "/home/dev/worktree/A3F8C2D1" twoWorktrees rfl rfl).2
      ⟨"/home/dev/worktree/a3f8c2d1", by decide, by decide⟩,
   by decide,
   (worktreeExists_iff_listed (demoWorld (.ok "") (.ok "") (.ok "") (.error "exit status 128"))
      sessA.AbsPath).2.2.1 "exit status 128" rfl⟩

/-! ## The persisted record -/

theorem lookup_foldl_insert (members : List (String × Session)) (m : SessionMap) (a : String)
    (hnd : (members.map (fun kv => (⟨kv.1, kv.2⟩ : Σ _ : String, Session))).NodupKeys) :
    (members.foldl (fun acc kv => acc.insert kv.1 kv.2) m).lookup a =
      (List.dlookup a (members.map (fun kv => (⟨kv.1, kv.2⟩ : Σ _ : String, Session)))).orElse
        (fun _ => m.lookup a) := by
  induction members generalizing m with
  | nil => simp
  | cons kv rest ih =>
    rw [List.map_cons, List.nodupKeys_cons] at hnd
    rw [List.foldl_cons, ih _ hnd.2, List.map_cons]
    by_cases hak : a = kv.1
    · subst hak
      rw [List.dlookup_cons_eq, List.dlookup_eq_none.2 hnd.1]
      simp
    · rw [List.dlookup_cons_ne _ _ hak, AList.lookup_insert_ne hak]

theorem load_data (s : Store) (w : World) (c : Codec) (d : Disk) (data : String)
    (members : List (String × Session))
    (hread : d.ReadFile (s.sessionsPath w) = .data data)
    (hdecode : c.Decode data = .ok (.object members)) :
    s.Load w c d =
      .ok ⟨{ s with sessions := members.foldl (fun acc kv => acc.insert kv.1 kv.2) s.sessions },
        false⟩ := by
  unfold Store.Load Unmarshal
  rw [hread]
  simp only []
  rw [hdecode]

theorem save_ok_inv (s : Store) (w : World) (c : Codec) (d : Disk)
    (h : (s.Save w c d).val.1 = none) :
    ∃ data, c.MarshalIndent s.sessions = .ok data ∧
      (s.Save w c d).val.2 = d.write (s.sessionsPath w) data := by
  unfold Store.Save mkdirAll writeFile at h ⊢
  simp only [bind, pure] at h ⊢
  cases hdir : d.MkdirAll (s.worktreeDirPath w) with
  | some err => rw [hdir] at h; simp at h
  | none =>
    rw [hdir] at h
    simp only [] at h ⊢
    cases hm : c.MarshalIndent s.sessions with
    | error err => rw [hm] at h; simp at h
    | ok data =>
      rw [hm] at h
      simp only [] at h ⊢
      cases hw : d.WriteFile (s.sessionsPath w) with
      | some err => rw [hw] at h; simp at h
      | none => exact ⟨data, rfl, rfl⟩

/-- C15: when `Save` succeeds, and the JSON decoder reads back from the text the
encoder wrote for the registry the members of that registry, `Load` into the store
freshly made by `NewStore` for the same repository root succeeds and yields a registry
with the same IDs, as many sessions, and under every ID the session that was saved,
equal in every field. -/
theorem save_load_round_trip (w : World) (c : Codec) (d : Disk) (s : Store)
    (hcodec : ∀ data, c.MarshalIndent s.sessions = .ok data →
      ∃ members, c.Decode data = .ok (.object members) ∧
        (members.map (fun kv => (⟨kv.1, kv.2⟩ : Σ _ : String, Session))).Perm
          s.sessions.entries)
    (hsaved : (s.Save w c d).val.1 = none) :
    ∃ loaded, (NewStore s.repoRoot).Load w c (s.Save w c d).val.2 = .ok loaded ∧
      loaded.repoRoot = s.repoRoot ∧
      (∀ id, loaded.Get id = s.Get id) ∧
      loaded.Count = s.Count ∧
      loaded.sessions.keys.Perm s.sessions.keys := by
  obtain ⟨data, hmarshal, hdisk⟩ := save_ok_inv s w c d hsaved
  obtain ⟨members, hdecode, hperm⟩ := hcodec data hmarshal
  have hnd : (members.map (fun kv => (⟨kv.1, kv.2⟩ : Σ _ : String, Session))).NodupKeys :=
    (List.perm_nodupKeys hperm).2 s.sessions.nodupKeys
  have hread : ((s.Save w c d).val.2).ReadFile ((NewStore s.repoRoot).sessionsPath w) =
      .data data := by
    rw [hdisk]
    show (d.write (s.sessionsPath w) data).ReadFile (s.sessionsPath w) = .data data
    simp [Disk.write]
  have hload := load_data (NewStore s.repoRoot) w c _ data members hread hdecode
  have hget : ∀ id, (members.foldl (fun acc kv => acc.insert kv.1 kv.2)
      (NewStore s.repoRoot).sessions).lookup id = s.sessions.lookup id := by
    intro id
    rw [lookup_foldl_insert members _ id hnd]
    have hempty : (NewStore s.repoRoot).sessions.lookup id = none := rfl
    rw [hempty, List.perm_dlookup id hnd s.sessions.nodupKeys hperm]
    show Option.orElse (s.sessions.lookup id) _ = _
    cases s.sessions.lookup id <;> rfl
  have hentries : (members.foldl (fun acc kv => acc.insert kv.1 kv.2)
      (NewStore s.repoRoot).sessions).entries.Perm s.sessions.entries := by
    apply List.lookup_ext (AList.nodupKeys _) s.sessions.nodupKeys
    intro id sess
    have := hget id
    unfold AList.lookup at this
    rw [this]
  refine ⟨_, hload, rfl, hget, ?_, ?_⟩
  · exact hentries.length_eq
  · exact hentries.map Sigma.fst

/-- C15 for the registry of `sessA` and `sessC` saved to a disk without a sessions file:
loading into a fresh store for the same root gives back both sessions, field by
field, and nothing else. -/
theorem save_load_round_trip_witness :
    (∃ loaded,
      (NewStore "/home/dev/repo").Load (demoWorld (.ok "") (.ok "") (.ok "") (.ok ""))
        demoCodec
        (pairStore.Save (demoWorld (.ok "") (.ok "") (.ok "") (.ok "")) demoCodec
          (demoDisk (.notExist "no such file or directory"))).val.2 = .ok loaded ∧
      loaded.repoRoot = pairStore.repoRoot ∧
      (∀ id, loaded.Get id = pairStore.Get id) ∧
      loaded.Count = pairStore.Count ∧
      loaded.sessions.keys.Perm pairStore.sessions.keys) ∧
    pairStore.Count = 2 ∧
    pairStore.Get "a3f8c2d1" = some sessA ∧
    pairStore.Get "5e09d4aa" = some sessC :=
  ⟨save_load_round_trip (demoWorld (.ok "") (.ok "") (.ok "") (.ok "")) demoCodec
      (demoDisk (.notExist "no such file or directory")) pairStore
      (fun data h => by
        have hm : demoCodec.MarshalIndent pairStore.sessions = .ok recordAC := by decide
        rw [hm] at h
        cases h
        refine ⟨[("5e09d4aa", sessC), ("a3f8c2d1", sessA)], by decide, ?_⟩
        have he : pairStore.sessions.entries =
            [⟨"5e09d4aa", sessC⟩, ⟨"a3f8c2d1", sessA⟩] := by decide
        rw [he]
        exact List.Perm.refl _)
      (by decide),
   by decide, by decide, by decide⟩

/-- C16 fails for a store that already holds sessions: the record on disk holds `sessC`
only, the store in memory holds `sessA`; `Load` succeeds and the store then holds both,
so `sessA`, which was only in memory, survives.  With the record missing the same
store is emptied by `Load`; a record that is no JSON makes `Load` fail with the parse
error. -/
theorem load_keeps_memory_entries :
    demoCodec.Decode recordC = .ok (.object [("5e09d4aa", sessC)]) ∧
    ((NewStore "/home/dev/repo").Add sessA).Count = 1 ∧
    (((NewStore "/home/dev/repo").Add sessA).Load
        (demoWorld (.ok "") (.ok "") (.ok "") (.ok "")) demoCodec
        (demoDisk (.data recordC))).map
        (fun s => (s.Get "a3f8c2d1", s.Get "5e09d4aa", s.Count)) =
      .ok (some sessA, some sessC, 2) ∧
    (((NewStore "/home/dev/repo").Add sessA).Load
        (demoWorld (.ok "") (.ok "") (.ok "") (.ok "")) demoCodec
        (demoDisk (.notExist "no such file or directory"))).map
        (fun s => (s.Get "a3f8c2d1", s.Count)) =
      .ok (none, 0) ∧
    (((NewStore "/home/dev/repo").Add sessA).Load
        (demoWorld (.ok "") (.ok "") (.ok "") (.ok "")) demoCodec
        (demoDisk (.data "not json"))).map (fun s => s.Count) =
      .error "failed to parse sessions file: invalid character" := by
  refine ⟨?_, by decide, by decide, by decide, by decide⟩
  decide

/-! ## The registry: keys, prefixes and enumeration order -/

theorem keysAreIDs_step (s : Store) (op : StoreOp)
    (h : ∀ id sess, s.Get id = some sess → sess.ID = id) :
    ∀ id sess, (s.step op).Get id = some sess → sess.ID = id := by
  intro id sess hget
  cases op with
  | add session =>
    by_cases hid : id = session.ID
    · subst hid
      have : (s.Add session).Get session.ID = some session := AList.lookup_insert s.sessions
      rw [Store.step, this] at hget
      cases hget
      rfl
    · have : (s.Add session).Get id = s.Get id := AList.lookup_insert_ne hid
      rw [Store.step, this] at hget
      exact h id sess hget
  | remove rid =>
    by_cases hid : id = rid
    · subst hid
      have : (s.Remove id).Get id = none := AList.lookup_erase id s.sessions
      rw [Store.step, this] at hget
      cases hget
    · have : (s.Remove rid).Get id = s.Get id := AList.lookup_erase_ne hid
      rw [Store.step, this] at hget
      exact h id sess hget

theorem keysAreIDs_run (s : Store) (ops : List StoreOp)
    (h : ∀ id sess, s.Get id = some sess → sess.ID = id) :
    ∀ id sess, (s.run ops).Get id = some sess → sess.ID = id := by
  induction ops generalizing s with
  | nil => exact h
  | cons op ops ih => exact ih (s.step op) (keysAreIDs_step s op h)

theorem keysAreIDs_new (repoRoot : String) :
    ∀ id sess, (NewStore repoRoot).Get id = some sess → sess.ID = id := by
  intro id sess h
  cases h

/-- C24: in the registry reached from `NewStore` by any sequence of `Add` and `Remove`,
a session stored under a key has that key as its `ID`; hence a session returned by a
successful `FindByPartialID p` has an `ID` that starts with `p` and is stored under its
own `ID`, and `Remove` of that `ID` deletes this entry and no other. -/
theorem built_registry_keys_are_ids (repoRoot : String) (ops : List StoreOp) :
    (∀ id sess, ((NewStore repoRoot).run ops).Get id = some sess → sess.ID = id) ∧
    (∀ p sess, ((NewStore repoRoot).run ops).FindByPartialID p = .ok sess →
      StartsWith sess.ID p ∧
      ((NewStore repoRoot).run ops).Get sess.ID = some sess ∧
      (((NewStore repoRoot).run ops).Remove sess.ID).Get sess.ID = none ∧
      (((NewStore repoRoot).run ops).Remove sess.ID).Count + 1 =
        ((NewStore repoRoot).run ops).Count ∧
      (∀ other, other ≠ sess.ID →
        (((NewStore repoRoot).run ops).Remove sess.ID).Get other =
          ((NewStore repoRoot).run ops).Get other)) := by
  have hinv := keysAreIDs_run (NewStore repoRoot) ops (keysAreIDs_new repoRoot)
  refine ⟨hinv, ?_⟩
  intro p sess hfind
  generalize (NewStore repoRoot).run ops = s at hinv hfind ⊢
  obtain ⟨id, hids, hget⟩ :=
    findMatches_singleton s p sess ((findByPartialID_ok_iff s p sess).1 hfind)
  have hid : sess.ID = id := hinv id sess hget
  have hmem : id ∈ s.idsWithPrefix p := by rw [hids]; simp
  have hkp := (mem_idsWithPrefix s p id).1 hmem
  rw [hid]
  refine ⟨hkp.2, hget, AList.lookup_erase id s.sessions, ?_, ?_⟩
  · rw [count_eq_keys_length, count_eq_keys_length]
    show (s.sessions.erase id).keys.length + 1 = s.sessions.keys.length
    rw [AList.keys_erase, List.length_erase_of_mem hkp.1]
    have : 0 < s.sessions.keys.length := List.length_pos_of_mem hkp.1
    omega
  · intro other hne
    exact AList.lookup_erase_ne hne

/-- C24 on the registry built by adding `sessA`, `sessB`, `sessC` and removing
`a3c10b7e`: the prefix `a3` finds `sessA`, whose ID starts with `a3`, and removing that
ID leaves `sessC` alone. -/
theorem built_registry_keys_are_ids_witness :
    ((NewStore "/home/dev/repo").run
      [.add sessA, .add sessB, .add sessC, .remove "a3c10b7e"]).FindByPartialID "a3" =
        .ok sessA ∧
    StartsWith sessA.ID "a3" ∧
    ((NewStore "/home/dev/repo").run
      [.add sessA, .add sessB, .add sessC, .remove "a3c10b7e"]).Get sessA.ID = some sessA ∧
    (((NewStore "/home/dev/repo").run
      [.add sessA, .add sessB, .add sessC, .remove "a3c10b7e"]).Remove sessA.ID).Get
        sessA.ID = none ∧
    (((NewStore "/home/dev/repo").run
      [.add sessA, .add sessB, .add sessC, .remove "a3c10b7e"]).Remove sessA.ID).Get
        "5e09d4aa" = some sessC :=
  ⟨by decide,
   ((built_registry_keys_are_ids "/home/dev/repo"
      [.add sessA, .add sessB, .add sessC, .remove "a3c10b7e"]).2 "a3" sessA (by decide)).1,
   ((built_registry_keys_are_ids "/home/dev/repo"
      [.add sessA, .add sessB, .add sessC, .remove "a3c10b7e"]).2 "a3" sessA (by decide)).2.1,
   ((built_registry_keys_are_ids "/home/dev/repo"
      [.add sessA, .add sessB, .add sessC, .remove "a3c10b7e"]).2 "a3" sessA
      (by decide)).2.2.1,
   by decide⟩

theorem startsWith_trans (i q p : String) (hiq : StartsWith i q) (hqp : StartsWith q p) :
    StartsWith i p :=
  List.IsPrefix.trans hqp hiq

theorem findByPartialID_of_ids (s : Store) (p id : String) (sess : Session)
    (hids : s.idsWithPrefix p = [id]) (hget : s.Get id = some sess) :
    s.FindByPartialID p = .ok sess := by
  obtain ⟨found, hfound⟩ := ids_singleton s p id hids
  obtain ⟨id', hids', hget'⟩ := findMatches_singleton s p found hfound
  rw [hids] at hids'
  have hid : id = id' := by simpa using hids'
  rw [← hid, hget] at hget'
  have hs : sess = found := by simpa using hget'
  rw [hs]
  exact (findByPartialID_ok_iff s p found).2 hfound

theorem findMatches_perm (s t : Store) (p : String)
    (h : s.sessions.entries.Perm t.sessions.entries) :
    (s.findMatches p).Perm (t.findMatches p) := by
  rw [findMatches_eq, findMatches_eq]
  exact (h.filter _).map _

theorem findByPartialID_congr (s t : Store) (p : String)
    (h : (s.findMatches p).Perm (t.findMatches p)) :
    s.FindByPartialID p = t.FindByPartialID p := by
  unfold Store.FindByPartialID
  generalize s.findMatches p = l₁ at h
  generalize t.findMatches p = l₂ at h
  match l₁, l₂, h with
  | [], l₂, h =>
    rw [List.nil_perm.1 h]
  | [m], l₂, h =>
    rw [List.singleton_perm.1 h]
  | m :: n :: rest, [], h =>
    exact absurd h.length_eq (by simp)
  | m :: n :: rest, [x], h =>
    exact absurd h.length_eq (by simp)
  | m :: n :: rest, x :: y :: rest', h =>
    simp only []
    rw [h.length_eq]

/-- C25: when `FindByPartialID p` succeeds with the session stored under the ID `i`,
every `q` that starts with `p` and with which `i` starts resolves to the same session;
and two registries with the same entries, enumerated in whatever orders, give the same
result for every partial ID. -/
theorem findByPartialID_prefix_stable (s : Store) (p : String) :
    (∀ sess i, s.FindByPartialID p = .ok sess → s.Get i = some sess → StartsWith i p →
      ∀ q, StartsWith q p → StartsWith i q → s.FindByPartialID q = .ok sess) ∧
    (∀ t : Store, s.sessions.entries.Perm t.sessions.entries →
      s.FindByPartialID p = t.FindByPartialID p) := by
  constructor
  · intro sess i hfind hget hip q hqp hiq
    obtain ⟨id, hids, _⟩ :=
      findMatches_singleton s p sess ((findByPartialID_ok_iff s p sess).1 hfind)
    have hikeys : i ∈ s.sessions.keys := by
      by_contra hn
      rw [(get_eq_none_iff s i).2 hn] at hget
      cases hget
    have hi : i = id := by
      have : i ∈ s.idsWithPrefix p := (mem_idsWithPrefix s p i).2 ⟨hikeys, hip⟩
      rw [hids] at this
      simpa using this
    have hq : s.idsWithPrefix q = [i] := by
      apply eq_singleton_of_nodup _ _ (idsWithPrefix_nodup s q)
      · exact (mem_idsWithPrefix s q i).2 ⟨hikeys, hiq⟩
      · intro x hx
        obtain ⟨hxk, hxq⟩ := (mem_idsWithPrefix s q x).1 hx
        have : x ∈ s.idsWithPrefix p :=
          (mem_idsWithPrefix s p x).2 ⟨hxk, startsWith_trans x q p hxq hqp⟩
        rw [hids] at this
        rw [hi]
        simpa using this
    exact findByPartialID_of_ids s q i sess hq hget
  · intro t hperm
    exact findByPartialID_congr s t p (findMatches_perm s t p hperm)

/-- C25 on the registry of three sessions: `a3f` resolves to `sessA`, and so does the
longer `a3f8c2`; the registry built by adding the same sessions in the reverse order
enumerates them in another order and resolves `a3f` to `sessA` as well. -/
theorem findByPartialID_prefix_stable_witness :
    demoStore.FindByPartialID "a3f" = .ok sessA ∧
    demoStore.FindByPartialID "a3f8c2" = .ok sessA ∧
    demoStore.sessions.keys = ["5e09d4aa", "a3c10b7e", "a3f8c2d1"] ∧
    ((NewStore "/home/dev/repo").run [.add sessC, .add sessB, .add sessA]).sessions.keys =
      ["a3f8c2d1", "a3c10b7e", "5e09d4aa"] ∧
    demoStore.FindByPartialID "a3f" =
      ((NewStore "/home/dev/repo").run [.add sessC, .add sessB, .add sessA]).FindByPartialID
        "a3f" :=
  ⟨by decide,
   (findByPartialID_prefix_stable demoStore "a3f").1 sessA "a3f8c2d1" (by decide) (by decide)
     (by decide) "a3f8c2" (by decide) (by decide),
   by decide, by decide,
   (findByPartialID_prefix_stable demoStore "a3f").2
     ((NewStore "/home/dev/repo").run [.add sessC, .add sessB, .add sessA]) (by decide)⟩

/-! ## The default branch -/

/-- C22 fails for a branch name with a slash: when the remote HEAD resolves to
`refs/remotes/origin/release/v2`, `GetDefaultBranch` returns `v2`, the text after the
last slash, and not the branch name `release/v2`; for `refs/remotes/origin/main` it
returns `main`. -/
theorem getDefaultBranch_keeps_last_segment :
    (GetDefaultBranch (remoteHeadWorld "refs/remotes/origin/release/v2\n")).val = .ok "v2" ∧
    (GetDefaultBranch (remoteHeadWorld "refs/remotes/origin/release/v2\n")).events =
      [Event.git ["symbolic-ref", "refs/remotes/origin/HEAD"]] ∧
    (GetDefaultBranch (remoteHeadWorld "refs/remotes/origin/main\n")).val = .ok "main" := by
  refine ⟨by decide, by decide, by decide⟩

/-! ## Pruning -/

theorem all_eq_map (s : Store) : s.All = s.sessions.entries.map (fun e => e.2) := by
  unfold Store.All
  have h : ∀ (l : List (Σ _ : String, Session)) (acc : List Session),
      l.foldl (fun result e => result ++ [e.2]) acc = acc ++ l.map (fun e => e.2) := by
    intro l
    induction l with
    | nil => simp
    | cons e l ih =>
      intro acc
      rw [List.foldl_cons, ih]
      simp
  rw [h]
  simp

theorem orphanDirsLoop_val (w : World) (d : Disk) (base : String) (knownPaths : List String)
    (entries : List DirEntry) :
    (orphanDirsLoop w d base knownPaths entries).val =
      (entries.filter (isOrphanDir w d base knownPaths)).map
        (fun entry => w.Join [base, entry.Name]) := by
  induction entries with
  | nil => rfl
  | cons entry rest ih =>
    unfold orphanDirsLoop
    by_cases hdir : entry.IsDir = true
    · simp only [hdir, Bool.not_true, Bool.false_eq_true, if_false]
      cases habs : w.Abs (w.Join [base, entry.Name]) with
      | error err =>
        have hno : isOrphanDir w d base knownPaths entry = false := by
          simp [isOrphanDir, habs]
        simp only [List.filter_cons, hno, Bool.false_eq_true, if_false]
        exact ih
      | ok absPath =>
        simp only []
        by_cases hknown : knownPaths.contains absPath = true
        · have hmem : absPath ∈ knownPaths := by simpa using hknown
          have hno : isOrphanDir w d base knownPaths entry = false := by
            simp [isOrphanDir, habs, hmem]
          simp only [hknown, if_true, List.filter_cons, hno, Bool.false_eq_true, if_false]
          exact ih
        · simp only [hknown, Bool.false_eq_true, if_false, bind, pure]
          by_cases hwt : (WorktreeExists w absPath).val = true
          · have hno : isOrphanDir w d base knownPaths entry = false := by
              simp [isOrphanDir, habs, hwt]
            simp only [hwt, if_true, List.filter_cons, hno, Bool.false_eq_true, if_false]
            exact ih
          · by_cases hempty : isDirEmptyOrOnlyGit d (w.Join [base, entry.Name]) = true
            · have hnm : absPath ∉ knownPaths := by simpa using hknown
              have hyes : isOrphanDir w d base knownPaths entry = true := by
                simp [isOrphanDir, habs, hdir, hnm, hwt, hempty]
              simp only [hwt, Bool.false_eq_true, if_false, hempty, if_true, List.filter_cons,
                hyes, List.map_cons, ih]
            · have hno : isOrphanDir w d base knownPaths entry = false := by
                simp [isOrphanDir, habs, hempty]
              simp only [hwt, Bool.false_eq_true, if_false, hempty, List.filter_cons, hno]
              exact ih
    · have hno : isOrphanDir w d base knownPaths entry = false := by
        simp [isOrphanDir, hdir]
      simp only [hdir, Bool.not_false, if_true, List.filter_cons, hno, Bool.false_eq_true,
        if_false]
      exact ih

theorem isOrphanDir_iff (w : World) (d : Disk) (base : String) (store : Store)
    (entry : DirEntry) :
    isOrphanDir w d base (store.All.map (fun sess => sess.AbsPath)) entry = true ↔
      entry.IsDir = true ∧
      ∃ absPath, w.Abs (w.Join [base, entry.Name]) = .ok absPath ∧
        (∀ sess ∈ store.All, sess.AbsPath ≠ absPath) ∧
        (WorktreeExists w absPath).val = false ∧
        isDirEmptyOrOnlyGit d (w.Join [base, entry.Name]) = true := by
  unfold isOrphanDir
  cases habs : w.Abs (w.Join [base, entry.Name]) with
  | error err => simp
  | ok absPath =>
    simp only [Bool.and_eq_true, Bool.not_eq_true', Except.ok.injEq, exists_eq_left']
    constructor
    · rintro ⟨hdir, ⟨hknown, hwt⟩, hempty⟩
      refine ⟨hdir, ?_, hwt, hempty⟩
      intro sess hsess heq
      have hmem : absPath ∈ store.All.map (fun sess => sess.AbsPath) :=
        List.mem_map.2 ⟨sess, hsess, heq⟩
      have : (store.All.map (fun sess => sess.AbsPath)).contains absPath = true := by
        simpa using hmem
      rw [this] at hknown
      cases hknown
    · rintro ⟨hdir, hknown, hwt, hempty⟩
      refine ⟨hdir, ⟨?_, hwt⟩, hempty⟩
      cases hc : (store.All.map (fun sess => sess.AbsPath)).contains absPath with
      | false => rfl
      | true =>
        have hmem : absPath ∈ store.All.map (fun sess => sess.AbsPath) := by simpa using hc
        obtain ⟨sess, hsess, heq⟩ := List.mem_map.1 hmem
        exact absurd heq (hknown sess hsess)

theorem isDirEmptyOrOnlyGit_iff (d : Disk) (dir : String) :
    isDirEmptyOrOnlyGit d dir = true ↔
      ∃ entries, d.ReadDir dir = .ok entries ∧ ∀ entry ∈ entries, entry.Name = ".git" := by
  unfold isDirEmptyOrOnlyGit
  cases d.ReadDir dir with
  | error err => simp
  | ok entries => simp

/-- What `findEmptyOrOrphanDirs` returns: exactly the paths of the subdirectories of
the worktree base directory that satisfy all three of: the absolute path is the
`AbsPath` of no tracked session, it is no worktree of the repository, and the directory
is empty or holds nothing but entries named `.git`; in the order of the directory
listing.  When the base directory cannot be read the result is empty. -/
theorem findEmptyOrOrphanDirs_exact (w : World) (d : Disk) (worktreeBaseDir : String)
    (store : Store) :
    (∀ entries, d.ReadDir worktreeBaseDir = .ok entries →
      (findEmptyOrOrphanDirs w d worktreeBaseDir store).val =
        (entries.filter
          (isOrphanDir w d worktreeBaseDir (store.All.map (fun sess => sess.AbsPath)))).map
          (fun entry => w.Join [worktreeBaseDir, entry.Name]) ∧
      ∀ dirPath, dirPath ∈ (findEmptyOrOrphanDirs w d worktreeBaseDir store).val ↔
        ∃ entry ∈ entries, entry.IsDir = true ∧
          dirPath = w.Join [worktreeBaseDir, entry.Name] ∧
          ∃ absPath, w.Abs dirPath = .ok absPath ∧
            (∀ sess ∈ store.All, sess.AbsPath ≠ absPath) ∧
            (WorktreeExists w absPath).val = false ∧
            isDirEmptyOrOnlyGit d dirPath = true) ∧
    (∀ err, d.ReadDir worktreeBaseDir = .error err →
      (findEmptyOrOrphanDirs w d worktreeBaseDir store).val = []) ∧
    (∀ dir, isDirEmptyOrOnlyGit d dir = true ↔
      ∃ entries, d.ReadDir dir = .ok entries ∧ ∀ entry ∈ entries, entry.Name = ".git") := by
  refine ⟨?_, ?_, isDirEmptyOrOnlyGit_iff d⟩
  · intro entries hread
    have hval : (findEmptyOrOrphanDirs w d worktreeBaseDir store).val =
        (entries.filter
          (isOrphanDir w d worktreeBaseDir (store.All.map (fun sess => sess.AbsPath)))).map
          (fun entry => w.Join [worktreeBaseDir, entry.Name]) := by
      unfold findEmptyOrOrphanDirs
      rw [hread]
      exact orphanDirsLoop_val w d worktreeBaseDir _ entries
    refine ⟨hval, ?_⟩
    intro dirPath
    rw [hval, List.mem_map]
    constructor
    · rintro ⟨entry, hmem, rfl⟩
      obtain ⟨hin, horphan⟩ := List.mem_filter.1 hmem
      obtain ⟨hdir, absPath, habs, hrest⟩ :=
        (isOrphanDir_iff w d worktreeBaseDir store entry).1 horphan
      exact ⟨entry, hin, hdir, rfl, absPath, habs, hrest⟩
    · rintro ⟨entry, hin, hdir, rfl, absPath, habs, hrest⟩
      refine ⟨entry, List.mem_filter.2 ⟨hin, ?_⟩, rfl⟩
      exact (isOrphanDir_iff w d worktreeBaseDir store entry).2 ⟨hdir, absPath, habs, hrest⟩
  · intro err hread
    unfold findEmptyOrOrphanDirs
    rw [hread]
    rfl

/-- C21 fails in the code: `findEmptyOrOrphanDirs` is documented to find the
directories that are empty or not tracked in sessions, and `prune` to remove the empty
directories of the worktree base directory.  On the example disk, with `sessA` and
`sessC` tracked and the base directory `../worktree` of the repository
`/home/dev/repo`, the subdirectory `a3f8c2d1` is empty and the subdirectory `scratch`
is tracked by no session, yet neither is returned: the first is the worktree of a
tracked session, the second holds a file.  Only `old`, which is untracked, no worktree
and holds a `.git` entry only, is returned. -/
theorem findEmptyOrOrphanDirs_skips_tracked_and_nonempty :
    (pruneWorld (.ok "")).Join [pairStore.repoRoot, "../worktree"] = "/home/dev/worktree" ∧
    pruneDisk.ReadDir "/home/dev/worktree" =
      .ok [⟨"a3f8c2d1", true⟩, ⟨"5e09d4aa", true⟩, ⟨"scratch", true⟩, ⟨"old", true⟩,
        ⟨"notes.txt", false⟩] ∧
    pruneDisk.ReadDir "/home/dev/worktree/a3f8c2d1" = .ok [] ∧
    isDirEmptyOrOnlyGit pruneDisk "/home/dev/worktree/a3f8c2d1" = true ∧
    pruneDisk.ReadDir "/home/dev/worktree/scratch" = .ok [⟨"draft.md", false⟩] ∧
    (pairStore.All.map (fun sess => sess.AbsPath)).contains "/home/dev/worktree/scratch" =
      false ∧
    (WorktreeExists (pruneWorld (.ok "")) "/home/dev/worktree/scratch").val = false ∧
    (findEmptyOrOrphanDirs (pruneWorld (.ok "")) pruneDisk
      ((pruneWorld (.ok "")).Join [pairStore.repoRoot, "../worktree"]) pairStore).val =
      ["/home/dev/worktree/old"] := by
  refine ⟨by decide, by decide, by decide, by decide, by decide, by decide, by decide,
    by decide⟩

theorem isStatusMerged_iff (w : World) (p b br : String) :
    isStatusMerged (GetStatus w p b br).val = true ↔
      (HasUncommittedChanges w p).val = .ok false ∧ (IsMerged w b br).val = .ok true := by
  rw [getStatus_val]
  unfold isStatusMerged
  cases h1 : (HasUncommittedChanges w p).val with
  | error e => simp
  | ok changed =>
    cases changed with
    | true => simp
    | false =>
      simp only []
      cases h2 : (IsMerged w b br).val with
      | error e => simp
      | ok merged =>
        cases merged with
        | true => simp
        | false =>
          simp only []
          cases h3 : (GetAheadCount w b br).val with
          | error e => simp
          | ok n =>
            simp only []
            by_cases hn : n > 0 <;> simp [hn]

theorem pruneMergedSessions_val (w : World) (baseBranch : String) (sessions : List Session) :
    (pruneMergedSessions w baseBranch sessions).val =
      sessions.filter
        (fun sess => isStatusMerged (GetStatus w sess.AbsPath baseBranch sess.Branch).val) := by
  induction sessions with
  | nil => rfl
  | cons sess rest ih =>
    unfold pruneMergedSessions
    simp only [bind, pure, List.filter_cons]
    cases hs : (GetStatus w sess.AbsPath baseBranch sess.Branch).val with
    | error e =>
      simp only [isStatusMerged, Bool.false_eq_true, if_false]
      exact ih
    | ok info =>
      by_cases hm : info.Status = .StatusMerged
      · simp only [isStatusMerged, hm, if_true, decide_True, ih]
      · simp only [isStatusMerged, hm, if_false, decide_False, Bool.false_eq_true]
        exact ih

theorem pruneRemoveLoop_val (w : World) (store : Store) (sessions : List Session) :
    (pruneRemoveLoop w store sessions).val =
      sessions.foldl (fun st sess => st.Remove sess.ID) store := by
  induction sessions generalizing store with
  | nil => rfl
  | cons sess rest ih =>
    unfold pruneRemoveLoop
    simp only [bind, pure, List.foldl_cons]
    exact ih (store.Remove sess.ID)

theorem get_foldl_remove (store : Store) (sessions : List Session) (id : String) :
    (sessions.foldl (fun st sess => st.Remove sess.ID) store).Get id =
      if id ∈ sessions.map (fun sess => sess.ID) then none else store.Get id := by
  induction sessions generalizing store with
  | nil => simp
  | cons sess rest ih =>
    rw [List.foldl_cons, ih]
    by_cases hrest : id ∈ rest.map (fun sess => sess.ID)
    · simp [hrest]
    · by_cases hid : id = sess.ID
      · subst hid
        have : (store.Remove sess.ID).Get sess.ID = none := AList.lookup_erase _ store.sessions
        simp [this]
      · have : (store.Remove sess.ID).Get id = store.Get id := AList.lookup_erase_ne hid
        simp only [hrest, if_false, this, List.map_cons, List.mem_cons, hid, or_self]

theorem runPrune_store (w : World) (c : Codec) (d : Disk) (pruneForce : Bool)
    (baseBranch worktreeBaseDir : String) (store : Store)
    (hgo : pruneForce = true ∨ (Confirm w "Proceed with cleanup?").val = true) :
    (runPrune w c d pruneForce baseBranch worktreeBaseDir store).val.store =
      (pruneMergedSessions w baseBranch store.All).val.foldl
        (fun st sess => st.Remove sess.ID) store := by
  rw [← pruneRemoveLoop_val w store]
  cases pruneForce with
  | true =>
    unfold runPrune
    simp only [bind, pure, if_true]
    split
    · next hnone =>
      rw [List.length_eq_zero.1 hnone.1]
      rfl
    · simp only [Bool.not_true, Bool.false_eq_true, if_false]
      cases ((pruneRemoveLoop w store (pruneMergedSessions w baseBranch store.All).val).val.Save
        w c d).val.1 <;> rfl
  | false =>
    have hc : (Confirm w "Proceed with cleanup?").val = true := by
      rcases hgo with h | h
      · cases h
      · exact h
    unfold runPrune
    simp only [bind, pure, Bool.false_eq_true, if_false]
    split
    · next hnone =>
      rw [List.length_eq_zero.1 hnone.1]
      rfl
    · simp only [hc, Bool.not_true, Bool.false_eq_true, if_false]
      cases ((pruneRemoveLoop w store (pruneMergedSessions w baseBranch store.All).val).val.Save
        w c d).val.1 <;> rfl

theorem mem_all_iff (s : Store) (sess : Session) :
    sess ∈ s.All ↔ ∃ id, s.Get id = some sess := by
  rw [all_eq_map, List.mem_map]
  constructor
  · rintro ⟨e, he, rfl⟩
    exact ⟨e.1, AList.mem_lookup_iff.2 he⟩
  · rintro ⟨id, hget⟩
    exact ⟨⟨id, sess⟩, AList.mem_lookup_iff.1 hget, rfl⟩

/-- C23, as the code has it: after a forced or confirmed `prune`, the entries removed
from the registry are those under the ID of a tracked session whose status is Merged,
that is whose uncommitted check succeeds with false and whose merged check is true;
every other entry is left as it was.  In a registry whose keys are the IDs of its
sessions, a tracked session is removed exactly when its uncommitted check succeeds with
false and its merged check is true; so no session with a false merged check is
removed. -/
theorem prune_removes_status_merged (w : World) (c : Codec) (d : Disk) (pruneForce : Bool)
    (baseBranch worktreeBaseDir : String) (store : Store)
    (hgo : pruneForce = true ∨ (Confirm w "Proceed with cleanup?").val = true) :
    (∀ id,
      (∃ sess ∈ store.All, sess.ID = id ∧
        (HasUncommittedChanges w sess.AbsPath).val = .ok false ∧
        (IsMerged w baseBranch sess.Branch).val = .ok true) →
      (runPrune w c d pruneForce baseBranch worktreeBaseDir store).val.store.Get id = none) ∧
    (∀ id,
      ¬ (∃ sess ∈ store.All, sess.ID = id ∧
        (HasUncommittedChanges w sess.AbsPath).val = .ok false ∧
        (IsMerged w baseBranch sess.Branch).val = .ok true) →
      (runPrune w c d pruneForce baseBranch worktreeBaseDir store).val.store.Get id =
        store.Get id) ∧
    ((∀ id sess, store.Get id = some sess → sess.ID = id) →
      ∀ id sess, store.Get id = some sess →
        ((runPrune w c d pruneForce baseBranch worktreeBaseDir store).val.store.Get id = none ↔
          (HasUncommittedChanges w sess.AbsPath).val = .ok false ∧
          (IsMerged w baseBranch sess.Branch).val = .ok true) ∧
        ((IsMerged w baseBranch sess.Branch).val = .ok false →
          (runPrune w c d pruneForce baseBranch worktreeBaseDir store).val.store.Get id =
            some sess)) := by
  have hstore := runPrune_store w c d pruneForce baseBranch worktreeBaseDir store hgo
  have hmem : ∀ id, id ∈ (pruneMergedSessions w baseBranch store.All).val.map
      (fun sess => sess.ID) ↔
      ∃ sess ∈ store.All, sess.ID = id ∧
        (HasUncommittedChanges w sess.AbsPath).val = .ok false ∧
        (IsMerged w baseBranch sess.Branch).val = .ok true := by
    intro id
    rw [pruneMergedSessions_val, List.mem_map]
    constructor
    · rintro ⟨sess, hs, rfl⟩
      obtain ⟨hin, hm⟩ := List.mem_filter.1 hs
      exact ⟨sess, hin, rfl, (isStatusMerged_iff w _ _ _).1 hm⟩
    · rintro ⟨sess, hin, rfl, hm⟩
      exact ⟨sess, List.mem_filter.2 ⟨hin, (isStatusMerged_iff w _ _ _).2 hm⟩, rfl⟩
  have hremoved : ∀ id,
      (∃ sess ∈ store.All, sess.ID = id ∧
        (HasUncommittedChanges w sess.AbsPath).val = .ok false ∧
        (IsMerged w baseBranch sess.Branch).val = .ok true) →
      (runPrune w c d pruneForce baseBranch worktreeBaseDir store).val.store.Get id = none := by
    intro id h
    rw [hstore, get_foldl_remove, if_pos ((hmem id).2 h)]
  have hkept : ∀ id,
      ¬ (∃ sess ∈ store.All, sess.ID = id ∧
        (HasUncommittedChanges w sess.AbsPath).val = .ok false ∧
        (IsMerged w baseBranch sess.Branch).val = .ok true) →
      (runPrune w c d pruneForce baseBranch worktreeBaseDir store).val.store.Get id =
        store.Get id := by
    intro id h
    rw [hstore, get_foldl_remove, if_neg (fun hin => h ((hmem id).1 hin))]
  refine ⟨hremoved, hkept, ?_⟩
  intro hkeys id sess hget
  have hin : sess ∈ store.All := (mem_all_iff store sess).2 ⟨id, hget⟩
  have hid : sess.ID = id := hkeys id sess hget
  have honly : (∃ other ∈ store.All, other.ID = id ∧
        (HasUncommittedChanges w other.AbsPath).val = .ok false ∧
        (IsMerged w baseBranch other.Branch).val = .ok true) →
      (HasUncommittedChanges w sess.AbsPath).val = .ok false ∧
        (IsMerged w baseBranch sess.Branch).val = .ok true := by
    rintro ⟨other, hother, hoid, hm⟩
    obtain ⟨key, hkey⟩ := (mem_all_iff store other).1 hother
    have hk : key = id := by rw [← hkeys key other hkey, hoid]
    rw [hk, hget] at hkey
    have : sess = other := by simpa using hkey
    rw [this]
    exact hm
  constructor
  · constructor
    · intro hnone
      by_contra hn
      have := hkept id (fun h => hn (honly h))
      rw [hnone, hget] at this
      cases this
    · intro hm
      exact hremoved id ⟨sess, hin, hid, hm⟩
  · intro hfalse
    have := hkept id (fun h => by
      have hm := (honly h).2
      rw [hfalse] at hm
      cases hm)
    rw [this, hget]

/-- C23 on the registry of `sessA` and `sessC`, both listed as merged and neither with
changes: a forced `prune` removes both. -/
theorem prune_removes_status_merged_witness :
    (runPrune (pruneWorld (.ok "")) demoCodec pruneDisk true "main" "../worktree"
      pairStore).val.store.Get "a3f8c2d1" = none ∧
    (runPrune (pruneWorld (.ok "")) demoCodec pruneDisk true "main" "../worktree"
      pairStore).val.store.Get "5e09d4aa" = none :=
  ⟨(((prune_removes_status_merged (pruneWorld (.ok "")) demoCodec pruneDisk true "main"
      "../worktree" pairStore (Or.inl rfl)).2.2
      (keysAreIDs_run (NewStore "/home/dev/repo") [.add sessA, .add sessC]
        (keysAreIDs_new "/home/dev/repo"))
      "a3f8c2d1" sessA (by decide)).1).2 ⟨by decide, by decide⟩,
   (prune_removes_status_merged (pruneWorld (.ok "")) demoCodec pruneDisk true "main"
      "../worktree" pairStore (Or.inl rfl)).1 "5e09d4aa"
      ⟨sessC, by decide, rfl, by decide, by decide⟩⟩

/-- C23 fails as stated: the branch of `sessA` is listed as merged into `main`, so its
merged check is true, while its worktree has a modified file; a forced `prune` removes
`sessC`, whose status is Merged, and leaves `sessA`, whose status is Uncommitted, in
the registry and in the saved record. -/
theorem prune_keeps_merged_with_changes :
    (IsMerged (pruneWorld (.ok " M main.go\n")) "main" sessA.Branch).val = .ok true ∧
    (GetStatus (pruneWorld (.ok " M main.go\n")) sessA.AbsPath "main" sessA.Branch).val =
      .ok { Status := .StatusUncommitted, AheadCount := 0, Description := "uncommitted" } ∧
    (runPrune (pruneWorld (.ok " M main.go\n")) demoCodec pruneDisk true "main" "../worktree"
      pairStore).val.store.Get "a3f8c2d1" = some sessA ∧
    (runPrune (pruneWorld (.ok " M main.go\n")) demoCodec pruneDisk true "main" "../worktree"
      pairStore).val.store.Get "5e09d4aa" = none ∧
    (runPrune (pruneWorld (.ok " M main.go\n")) demoCodec pruneDisk true "main" "../worktree"
      pairStore).val.err = none ∧
    (runPrune (pruneWorld (.ok " M main.go\n")) demoCodec pruneDisk true "main" "../worktree"
      pairStore).val.disk.ReadFile "/home/dev/repo/.wtree/sessions.json" = .data recordA := by
  refine ⟨by decide, by decide, by decide, by decide, by decide, by decide⟩

end Wtree
